import Mathlib

/-!
# Verification of slack-manager-common: Alert Clean / Validate / identity hash

Shallow embedding of the Go package `common` (files `alert.go`,
`alert_severity.go`, `webhook_button_style.go`, `webhook_display_mode.go`).

Modelling conventions:
* A Go `string` holding text is modelled as `List Char` (one element per
  unicode codepoint / rune).  `utf8.RuneCountInString` is `List.length`;
  Go's `len` (UTF-8 byte count) is `goLen` below, summing per-rune UTF-8
  widths.  For the identity hash, which absorbs raw bytes, byte strings are
  modelled as `List Nat` (each `< 256`).
* Go slices are modelled as `List`; a nil slice and an empty slice are
  behaviourally identical in every modelled code path (`len nil = 0`,
  `range nil` iterates zero times, and the `== nil` early returns produce
  the same result as the empty-list path), so the distinction is dropped.
* Nil pointers inside slices (`[]*T`) are modelled as `Option` elements.
* `map[string]any` values (`Metadata`, webhook `Payload`) are only ever
  counted and never read or written by the modelled code; they are modelled
  as association lists with opaque `Nat` tokens for the `any` values.
* Go `int` is modelled as `Int` (no claim exercises 64-bit overflow).
* `strings.ToLower` / `strings.ToUpper` are modelled by their action on the
  ASCII letters (all case-mapped data exercised by the code and claims is
  ASCII); all other codepoints are fixed.
-/

namespace SlackMgr

/-- A Go string viewed as its sequence of unicode codepoints (runes). -/
abbrev GoStr := List Char

/-- UTF-8 width in bytes of one codepoint (RFC 3629). -/
def utf8Width (c : Char) : Nat :=
  if c.toNat < 0x80 then 1
  else if c.toNat < 0x800 then 2
  else if c.toNat < 0x10000 then 3
  else 4

/-- Go's `len(s)` on a string: number of UTF-8 bytes. -/
def goLen (s : GoStr) : Nat := (s.map utf8Width).sum

/-- Go's `utf8.RuneCountInString`: number of codepoints. -/
def runeCount (s : GoStr) : Nat := s.length

/-- The set of codepoints for which Go's `unicode.IsSpace` is true
(White_Space property plus the Latin-1 additions). -/
def isGoSpace (c : Char) : Bool :=
  c ∈ ['\t', '\n', (Char.ofNat 11), (Char.ofNat 12), '\r', ' ',
       (Char.ofNat 0x85), (Char.ofNat 0xA0), (Char.ofNat 0x1680),
       (Char.ofNat 0x2000), (Char.ofNat 0x2001), (Char.ofNat 0x2002),
       (Char.ofNat 0x2003), (Char.ofNat 0x2004), (Char.ofNat 0x2005),
       (Char.ofNat 0x2006), (Char.ofNat 0x2007), (Char.ofNat 0x2008),
       (Char.ofNat 0x2009), (Char.ofNat 0x200A), (Char.ofNat 0x2028),
       (Char.ofNat 0x2029), (Char.ofNat 0x202F), (Char.ofNat 0x205F),
       (Char.ofNat 0x3000)]

/-- `strings.TrimSpace`: drop leading and trailing `unicode.IsSpace` runes. -/
def trimSpace (s : GoStr) : GoStr :=
  ((s.dropWhile isGoSpace).reverse.dropWhile isGoSpace).reverse

/-- ASCII lower-casing of one codepoint (model of `strings.ToLower`'s
action on the data exercised here; non-ASCII codepoints are fixed). -/
def lowerChar (c : Char) : Char :=
  if 65 ≤ c.toNat ∧ c.toNat ≤ 90 then Char.ofNat (c.toNat + 32) else c

/-- ASCII upper-casing of one codepoint (model of `strings.ToUpper`). -/
def upperChar (c : Char) : Char :=
  if 97 ≤ c.toNat ∧ c.toNat ≤ 122 then Char.ofNat (c.toNat - 32) else c

/-- `strings.ToLower` (ASCII model, see module comment). -/
def toLowerStr (s : GoStr) : GoStr := s.map lowerChar

/-- `strings.ToUpper` (ASCII model, see module comment). -/
def toUpperStr (s : GoStr) : GoStr := s.map upperChar

/-- The scan of `strings.ReplaceAll(s, pat, rep)` for a nonempty pattern:
left to right, replacing each leftmost non-overlapping occurrence.  `skip`
counts the residual characters of a match whose replacement has already
been emitted (structural recursion on the string). -/
def replaceAllGo (pat rep : GoStr) : GoStr → Nat → GoStr
  | [], _ => []
  | _ :: s, k + 1 => replaceAllGo pat rep s k
  | c :: s, 0 =>
    if pat <+: (c :: s) ∧ pat ≠ [] then rep ++ replaceAllGo pat rep s (pat.length - 1)
    else c :: replaceAllGo pat rep s 0

/-- `strings.ReplaceAll(s, pat, rep)` for a nonempty pattern. -/
def replaceAll (pat rep : GoStr) (s : GoStr) : GoStr := replaceAllGo pat rep s 0

/-- The single-character substitution underlying
`strings.ReplaceAll(s, "\n", " ")`. -/
def nlToSpace (c : Char) : Char := if c = '\n' then ' ' else c

/-- `strings.ReplaceAll(s, "\n", " ")`. -/
def replaceNl (s : GoStr) : GoStr := s.map nlToSpace

/-- `truncateString` from `alert.go`: keep the first `maxRunes` codepoints
when the string is longer than that, never splitting a codepoint (the
model works on whole codepoints, so splitting is impossible by
construction). -/
def truncateString (s : GoStr) (maxRunes : Nat) : GoStr :=
  if runeCount s ≤ maxRunes then s else s.take maxRunes

/-- `strings.HasPrefix` on codepoints. -/
def hasPrefixStr (s pre : GoStr) : Bool := pre.isPrefixOf s

/-- `strings.HasSuffix` on codepoints. -/
def hasSuffixStr (s suf : GoStr) : Bool := suf.isSuffixOf s

/-- The space codepoints, as a list (used only to state facts about
`isGoSpace`). -/
def goSpaceList : List Char :=
  ['\t', '\n', (Char.ofNat 11), (Char.ofNat 12), '\r', ' ',
   (Char.ofNat 0x85), (Char.ofNat 0xA0), (Char.ofNat 0x1680),
   (Char.ofNat 0x2000), (Char.ofNat 0x2001), (Char.ofNat 0x2002),
   (Char.ofNat 0x2003), (Char.ofNat 0x2004), (Char.ofNat 0x2005),
   (Char.ofNat 0x2006), (Char.ofNat 0x2007), (Char.ofNat 0x2008),
   (Char.ofNat 0x2009), (Char.ofNat 0x200A), (Char.ofNat 0x2028),
   (Char.ofNat 0x2029), (Char.ofNat 0x202F), (Char.ofNat 0x205F),
   (Char.ofNat 0x3000)]

/-! ## Constants (`alert.go`, `const` block) -/

/-- `MaxTimestampAge = 7 * 24 * time.Hour`, in nanoseconds (the unit of
`time.Duration`); timestamps are modelled as `Int` instants in the same unit. -/
def maxTimestampAge : Int := 604800000000000

def maxSlackChannelIDLength : Nat := 80

def maxRouteKeyLength : Nat := 1000

def maxHeaderLength : Nat := 130

def maxFallbackTextLength : Nat := 150

def maxTextLength : Nat := 10000

def maxAuthorLength : Nat := 100

def maxHostLength : Nat := 100

def maxFooterLength : Nat := 300

def maxUsernameLength : Nat := 100

def maxFieldTitleLength : Nat := 30

def maxFieldValueLength : Nat := 200

def maxIconEmojiLength : Nat := 50

def maxMentionLength : Nat := 20

def maxCorrelationIDLength : Nat := 500

def minAutoResolveSeconds : Int := 30

def maxAutoResolveSeconds : Int := 63113851

def maxIgnoreIfTextContainsLength : Nat := 1000

def maxIgnoreIfTextContainsCount : Nat := 20

def maxFieldCount : Nat := 20

def maxWebhookCount : Nat := 5

def maxWebhookIDLength : Nat := 100

def maxWebhookURLLength : Nat := 1000

def maxWebhookButtonTextLength : Nat := 25

def maxWebhookConfirmationTextLength : Nat := 1000

def maxWebhookPayloadCount : Nat := 50

def maxWebhookPlainTextInputCount : Nat := 10

def maxWebhookCheckboxInputCount : Nat := 10

def maxWebhookInputIDLength : Nat := 200

def maxWebhookInputDescriptionLength : Nat := 200

def maxWebhookInputLabelLength : Nat := 200

def maxWebhookInputTextLength : Int := 3000

def maxWebhookCheckboxOptionCount : Nat := 5

def maxWebhookCheckboxOptionTextLength : Nat := 50

def maxCheckboxOptionValueLength : Nat := 100

def maxEscalationCount : Nat := 3

def minEscalationDelaySeconds : Int := 30

def minEscalationDelayDiffSeconds : Int := 30

def maxEscalationSlackMentionCount : Nat := 10

/-! ## Enumerations (`alert_severity.go`, `webhook_button_style.go`,
`webhook_display_mode.go`; the access-level enumeration's source file is
absent from the repository snapshot, see `webhookAccessLevelIsValid`) -/

/-- `SeverityIsValid` (`alert_severity.go`): membership in the closed set. -/
def severityIsValid (s : GoStr) : Bool :=
  s = "panic".data ∨ s = "error".data ∨ s = "warning".data ∨
    s = "resolved".data ∨ s = "info".data

/-- `WebhookButtonStyleIsValid` (`webhook_button_style.go`). -/
def webhookButtonStyleIsValid (s : GoStr) : Bool :=
  s = "primary".data ∨ s = "danger".data

/-- `WebhookDisplayModeIsValid` (`webhook_display_mode.go`). -/
def webhookDisplayModeIsValid (s : GoStr) : Bool :=
  s = "always".data ∨ s = "open_issue".data ∨ s = "resolved_issue".data

/-- `WebhookAccessLevelIsValid` (`queue_item.go`, the embedded access-level
document, lines 33-40): a switch accepting exactly the three constants
`global_admins`, `channel_admins` and `channel_members`. -/
def webhookAccessLevelIsValid (s : GoStr) : Bool :=
  s = "global_admins".data ∨ s = "channel_admins".data ∨ s = "channel_members".data

/-! ## Record definitions (`alert.go`) -/

/-- `Field` (named `AlertField` here because `Field` is taken by Mathlib). -/
structure AlertField where
  title : GoStr
  value : GoStr
deriving DecidableEq

/-- `Escalation`. -/
structure Escalation where
  severity : GoStr
  delaySeconds : Int
  slackMentions : List GoStr
  moveToChannel : GoStr
deriving DecidableEq

/-- `WebhookCheckboxOption`. -/
structure WebhookCheckboxOption where
  value : GoStr
  text : GoStr
  selected : Bool
deriving DecidableEq

/-- `WebhookCheckboxInput`. -/
structure WebhookCheckboxInput where
  id : GoStr
  label : GoStr
  options : List (Option WebhookCheckboxOption)
deriving DecidableEq

/-- `WebhookPlainTextInput`. -/
structure WebhookPlainTextInput where
  id : GoStr
  description : GoStr
  minLength : Int
  maxLength : Int
  multiline : Bool
  initialValue : GoStr
deriving DecidableEq

/-- `Webhook`.  `payload` is a `map[string]any`, modelled as an association
list with opaque value tokens (the code only ever takes its `len`). -/
structure Webhook where
  id : GoStr
  url : GoStr
  confirmationText : GoStr
  buttonText : GoStr
  buttonStyle : GoStr
  accessLevel : GoStr
  displayMode : GoStr
  payload : List (GoStr × Nat)
  plainTextInput : List (Option WebhookPlainTextInput)
  checkboxInput : List (Option WebhookCheckboxInput)
deriving DecidableEq

/-- `Alert`.  `timestamp` is an `Int` instant in nanoseconds; `metadata`
is a `map[string]any` modelled like `Webhook.payload`. -/
structure Alert where
  timestamp : Int
  correlationID : GoStr
  type : GoStr
  header : GoStr
  headerWhenResolved : GoStr
  text : GoStr
  textWhenResolved : GoStr
  fallbackText : GoStr
  author : GoStr
  host : GoStr
  footer : GoStr
  link : GoStr
  issueFollowUpEnabled : Bool
  autoResolveSeconds : Int
  autoResolveAsInconclusive : Bool
  severity : GoStr
  slackChannelID : GoStr
  routeKey : GoStr
  username : GoStr
  iconEmoji : GoStr
  fields : List (Option AlertField)
  notificationDelaySeconds : Int
  archivingDelaySeconds : Int
  escalation : List (Option Escalation)
  ignoreIfTextContains : List GoStr
  webhooks : List (Option Webhook)
  metadata : List (GoStr × Nat)
  failOnRateLimitError : Bool
deriving DecidableEq

/-! ## The cleaning pass (`Alert.Clean`, `alert.go` lines 466-609) -/

def statusToken : GoStr := ":status:".data

def ellipsis : GoStr := "...".data

def codeFence : GoStr := "```".data

/-- The truncation idiom repeated per field in `Clean`
(`x = strings.TrimSpace(truncateString(x, bound-3)) + "..."` guarded by
`utf8.RuneCountInString(x) > bound`). -/
def truncateWithEllipsis (bound : Nat) (s : GoStr) : GoStr :=
  if bound < runeCount s then trimSpace (truncateString s (bound - 3)) ++ ellipsis else s

/-- `shortenAlertTextIfNeeded` (`alert.go` lines 1044-1056). -/
def shortenAlertTextIfNeeded (text : GoStr) : GoStr :=
  if runeCount text ≤ maxTextLength then text
  else if hasSuffixStr text codeFence then
    trimSpace (truncateString text (maxTextLength - 6)) ++ (ellipsis ++ codeFence)
  else
    trimSpace (truncateString text (maxTextLength - 3)) ++ ellipsis

/-- The fallback-text pipeline in `Clean` (lines 478-479 and 489-491):
strip `:status:`, trim, collapse newlines, then truncate without re-trimming. -/
def cleanFallbackText (s : GoStr) : GoStr :=
  let t := replaceNl (trimSpace (replaceAll statusToken [] s))
  if maxFallbackTextLength < runeCount t then
    truncateString t (maxFallbackTextLength - 3) ++ ellipsis
  else t

/-- The severity defaulting in `Clean` (lines 487, 493-495). -/
def cleanSeverity (s : GoStr) : GoStr :=
  let t := toLowerStr (trimSpace s)
  if t = [] ∨ t = "critical".data then "error".data else t

/-- Per-field cleaning in the `Fields` loop (lines 534-549); nil entries
are skipped. -/
def cleanFieldOpt : Option AlertField → Option AlertField
  | none => none
  | some f =>
    some { title := truncateWithEllipsis maxFieldTitleLength (trimSpace f.title),
           value := truncateWithEllipsis maxFieldValueLength (trimSpace f.value) }

def cleanPlainTextInputOpt : Option WebhookPlainTextInput → Option WebhookPlainTextInput
  | none => none
  | some i =>
    some { i with
      id := trimSpace i.id,
      description := trimSpace i.description,
      initialValue := trimSpace i.initialValue }

def cleanCheckboxInputOpt : Option WebhookCheckboxInput → Option WebhookCheckboxInput
  | none => none
  | some i => some { i with id := trimSpace i.id, label := trimSpace i.label }

/-- Per-webhook cleaning (lines 551-583); nil entries are skipped. -/
def cleanWebhookOpt : Option Webhook → Option Webhook
  | none => none
  | some h =>
    some { h with
      id := trimSpace h.id,
      buttonText := trimSpace h.buttonText,
      url := trimSpace h.url,
      confirmationText := trimSpace h.confirmationText,
      buttonStyle := if h.buttonStyle = "default".data then [] else h.buttonStyle,
      plainTextInput := h.plainTextInput.map cleanPlainTextInputOpt,
      checkboxInput := h.checkboxInput.map cleanCheckboxInputOpt }

/-- Per-escalation cleaning (lines 596-607); nil entries are skipped. -/
def cleanEscalationOpt : Option Escalation → Option Escalation
  | none => none
  | some e =>
    some { e with
      severity := toLowerStr (trimSpace e.severity),
      moveToChannel := toUpperStr (trimSpace e.moveToChannel),
      slackMentions := e.slackMentions.map trimSpace }

/-- The comparator closure passed to `sort.Slice` (lines 586-594). -/
def lessEsc (x y : Option Escalation) : Bool :=
  match x with
  | none => true
  | some ex =>
    match y with
    | none => false
    | some ey => ex.delaySeconds < ey.delaySeconds

/-- One step of the in-place insertion sort that `sort.Slice` performs at
these list sizes: the new element is placed immediately before the maximal
suffix of elements it compares strictly less than (right-to-left swaps). -/
def insertGo {α : Type} (less : α → α → Bool) (x : α) : List α → List α
  | [] => [x]
  | y :: ys => if less x y && ys.all (less x) then x :: y :: ys else y :: insertGo less x ys

/-- The sort in `Clean` step 7: elements are taken left to right and
inserted into the already-sorted prefix, matching Go's insertion sort. -/
def sortGo {α : Type} (less : α → α → Bool) (l : List α) : List α :=
  l.foldl (fun acc x => insertGo less x acc) []

/-- `Alert.Clean`, as a function of the current instant `now`
(`time.Now()` / the base of `time.Since`). -/
def clean (now : Int) (a : Alert) : Alert :=
  { a with
    timestamp := if maxTimestampAge < now - a.timestamp then now else a.timestamp,
    type := toLowerStr (trimSpace a.type),
    slackChannelID := toUpperStr (trimSpace a.slackChannelID),
    routeKey := toLowerStr (trimSpace a.routeKey),
    header := truncateWithEllipsis maxHeaderLength (replaceNl (trimSpace a.header)),
    headerWhenResolved :=
      truncateWithEllipsis maxHeaderLength (replaceNl (trimSpace a.headerWhenResolved)),
    text := shortenAlertTextIfNeeded (trimSpace a.text),
    textWhenResolved := shortenAlertTextIfNeeded (trimSpace a.textWhenResolved),
    fallbackText := cleanFallbackText a.fallbackText,
    correlationID := trimSpace a.correlationID,
    username := truncateWithEllipsis maxUsernameLength (trimSpace a.username),
    author := truncateWithEllipsis maxAuthorLength (trimSpace a.author),
    host := truncateWithEllipsis maxHostLength (trimSpace a.host),
    link := trimSpace a.link,
    footer := truncateWithEllipsis maxFooterLength (trimSpace a.footer),
    iconEmoji := toLowerStr (trimSpace a.iconEmoji),
    severity := cleanSeverity a.severity,
    archivingDelaySeconds :=
      if a.archivingDelaySeconds < 0 then 0 else a.archivingDelaySeconds,
    notificationDelaySeconds :=
      if a.notificationDelaySeconds < 0 then 0 else a.notificationDelaySeconds,
    fields := a.fields.map cleanFieldOpt,
    webhooks := a.webhooks.map cleanWebhookOpt,
    escalation :=
      if 0 < a.escalation.length then (sortGo lessEsc a.escalation).map cleanEscalationOpt
      else a.escalation }

/-- The nil-receiver behaviour of `Clean`: calling the method on a nil
`*Alert` dereferences the pointer on its first statement and panics.  The
outer `Option` is `none` exactly when the call panics; otherwise it holds
the final state of the receiver. -/
def cleanCall (now : Int) : Option Alert → Option (Option Alert)
  | none => none
  | some a => some (some (clean now a))

/-! ## The validation engine (`Alert.Validate`, `alert.go` lines 611-1042).

Each Go validator returns the first violated rule as an `error`; errors are
modelled as constructors carrying the index path that the message renders. -/

set_option maxHeartbeats 1600000 in
inductive ValErr where
  | alertNil
  | slackChannelIDBad
  | routeKeyTooLong
  | headerAndTextEmpty
  | iconEmojiBad
  | linkBad
  | severityBad
  | correlationIDTooLong
  | autoResolveTooLow
  | autoResolveTooHigh
  | tooManyIgnoreItems
  | ignoreItemTooLong (index : Nat)
  | tooManyFields
  | tooManyWebhooks
  | webhookNil (i : Nat)
  | webhookIDRequired (i : Nat)
  | webhookIDTooLong (i : Nat)
  | webhookIDNotUnique (i : Nat)
  | webhookURLRequired (i : Nat)
  | webhookURLTooLong (i : Nat)
  | webhookURLBad (i : Nat)
  | webhookURLNotASCII (i : Nat)
  | webhookButtonTextRequired (i : Nat)
  | webhookButtonTextTooLong (i : Nat)
  | webhookConfirmationTextTooLong (i : Nat)
  | webhookButtonStyleBad (i : Nat)
  | webhookAccessLevelBad (i : Nat)
  | webhookDisplayModeBad (i : Nat)
  | webhookPayloadTooLarge (i : Nat)
  | webhookPlainTextInputTooMany (i : Nat)
  | webhookCheckboxInputTooMany (i : Nat)
  | plainTextInputNil (i j : Nat)
  | plainTextInputIDRequired (i j : Nat)
  | plainTextInputIDNotUnique (i j : Nat)
  | plainTextInputIDTooLong (i j : Nat)
  | plainTextInputDescriptionTooLong (i j : Nat)
  | plainTextInputMinLengthNeg (i j : Nat)
  | plainTextInputMinLengthTooLarge (i j : Nat)
  | plainTextInputMaxLengthNeg (i j : Nat)
  | plainTextInputMaxLengthTooLarge (i j : Nat)
  | plainTextInputMaxLtMin (i j : Nat)
  | plainTextInputInitialTooLong (i j : Nat)
  | plainTextInputInitialTooShort (i j : Nat)
  | checkboxInputNil (i j : Nat)
  | checkboxInputIDRequired (i j : Nat)
  | checkboxInputIDNotUnique (i j : Nat)
  | checkboxInputIDTooLong (i j : Nat)
  | checkboxInputLabelTooLong (i j : Nat)
  | checkboxInputOptionsTooMany (i j : Nat)
  | checkboxOptionNil (i j k : Nat)
  | checkboxOptionValueRequired (i j k : Nat)
  | checkboxOptionValueTooLong (i j k : Nat)
  | checkboxOptionValueNotUnique (i j k : Nat)
  | checkboxOptionTextTooLong (i j k : Nat)
  | escalationTooMany
  | escalationNil (i : Nat)
  | escalationDelayTooLow (i : Nat)
  | escalationDelayDiffTooSmall (i : Nat)
  | escalationSeverityBad (i : Nat)
  | escalationMentionsTooMany (i : Nat)
  | escalationMentionBad (i j : Nat)
  | escalationMoveToChannelBad (i : Nat)

/-- The character class of `SlackChannelIDOrNameRegex`: `[0-9a-zA-Z\-_]`. -/
def isChanChar (c : Char) : Bool :=
  (48 ≤ c.toNat ∧ c.toNat ≤ 57) ∨ (97 ≤ c.toNat ∧ c.toNat ≤ 122) ∨
    (65 ≤ c.toNat ∧ c.toNat ≤ 90) ∨ c = '-' ∨ c = '_'

/-- `SlackChannelIDOrNameRegex`: `^[0-9a-zA-Z\-_]{1,80}$`. -/
def slackChannelIDOrNameMatch (s : GoStr) : Bool :=
  1 ≤ s.length ∧ s.length ≤ maxSlackChannelIDLength ∧ s.all isChanChar

/-- `IconRegex`: `^:[^:]{1,50}:$`. -/
def iconMatch (s : GoStr) : Bool :=
  s.head? = some ':' ∧ s.getLast? = some ':' ∧ 3 ≤ s.length ∧
    s.length ≤ maxIconEmojiLength + 2 ∧ ((s.drop 1).dropLast.all fun c => c ≠ ':')

/-- The character class `[^>\s]` of `SlackMentionRegex` (`\s` in Go regexp
syntax is `[\t\n\f\r ]`). -/
def isMentionBodyChar (c : Char) : Bool :=
  c ≠ '>' ∧ c ∉ (['\t', '\n', (Char.ofNat 12), '\r', ' '] : List Char)

/-- `SlackMentionRegex`: `^((<!here>)|(<!channel>)|(<@[^>\s]{1,20}>))$`. -/
def slackMentionMatch (s : GoStr) : Bool :=
  s = "<!here>".data ∨ s = "<!channel>".data ∨
    (hasPrefixStr s "<@".data ∧ hasSuffixStr s ">".data ∧
      (let mid := (s.drop 2).dropLast
       1 ≤ mid.length ∧ mid.length ≤ maxMentionLength ∧ mid.all isMentionBodyChar))

/-- `isValidASCII` (`alert.go` lines 1068-1076): the Go loop checks each
byte; a codepoint outside `[0x20, 0x7E]` either is such a byte or encodes
only bytes `≥ 0x80`, so the byte check and this codepoint check agree. -/
def isValidASCII (s : GoStr) : Bool :=
  s.all fun c => 0x20 ≤ c.toNat ∧ c.toNat ≤ 0x7E

/-- Abstraction of the two `url.ParseRequestURI`-based checks.  `linkOk s`
models "parses and has a non-empty scheme" (`ValidateLink`); `webhookURLOk s`
models "parses and has non-empty scheme and host" (`ValidateWebhooks`).
The URL parser itself is outside the modelled claims, so theorems quantify
over arbitrary behaviours of these checks. -/
structure UrlChecks where
  linkOk : GoStr → Bool
  webhookURLOk : GoStr → Bool

/-- `Alert.ValidateSlackChannelIDAndRouteKey` (lines 660-676). -/
def validateSlackChannelIDAndRouteKey (a : Alert) : Option ValErr :=
  if a.slackChannelID ≠ [] then
    if ¬ slackChannelIDOrNameMatch a.slackChannelID then some .slackChannelIDBad
    else none
  else if maxRouteKeyLength < goLen a.routeKey then some .routeKeyTooLong
  else none

/-- `Alert.ValidateHeaderAndText` (lines 678-686). -/
def validateHeaderAndText (a : Alert) : Option ValErr :=
  if a.header = [] ∧ a.text = [] then some .headerAndTextEmpty else none

/-- `Alert.ValidateIcon` (lines 688-699). -/
def validateIcon (a : Alert) : Option ValErr :=
  if a.iconEmoji = [] then none
  else if ¬ iconMatch a.iconEmoji then some .iconEmojiBad
  else none

/-- `Alert.ValidateLink` (lines 701-717). -/
def validateLink (u : UrlChecks) (a : Alert) : Option ValErr :=
  if a.link = [] then none
  else if ¬ u.linkOk a.link then some .linkBad
  else none

/-- `Alert.ValidateSeverity` (lines 719-726). -/
def validateSeverity (a : Alert) : Option ValErr :=
  if ¬ severityIsValid a.severity then some .severityBad else none

/-- `Alert.ValidateCorrelationID` (lines 728-739); note `len` counts bytes. -/
def validateCorrelationID (a : Alert) : Option ValErr :=
  if a.correlationID = [] then none
  else if maxCorrelationIDLength < goLen a.correlationID then some .correlationIDTooLong
  else none

/-- `Alert.ValidateAutoResolve` (lines 741-757). -/
def validateAutoResolve (a : Alert) : Option ValErr :=
  if ¬ a.issueFollowUpEnabled then none
  else if a.autoResolveSeconds < minAutoResolveSeconds then some .autoResolveTooLow
  else if maxAutoResolveSeconds < a.autoResolveSeconds then some .autoResolveTooHigh
  else none

/-- The indexed scan in `ValidateIgnoreIfTextContains` (lines 770-774). -/
def ignoreScan (index : Nat) : List GoStr → Option ValErr
  | [] => none
  | s :: rest =>
    if maxIgnoreIfTextContainsLength < goLen s then some (.ignoreItemTooLong index)
    else ignoreScan (index + 1) rest

/-- `Alert.ValidateIgnoreIfTextContains` (lines 759-777). -/
def validateIgnoreIfTextContains (a : Alert) : Option ValErr :=
  if a.ignoreIfTextContains.length = 0 then none
  else if maxIgnoreIfTextContainsCount < a.ignoreIfTextContains.length then
    some .tooManyIgnoreItems
  else ignoreScan 0 a.ignoreIfTextContains

/-- `Alert.ValidateFields` (lines 779-786). -/
def validateFields (a : Alert) : Option ValErr :=
  if maxFieldCount < a.fields.length then some .tooManyFields else none

/-- The options loop of the checkbox-input validator (lines 960-984). -/
def checkboxOptionScan (i j k : Nat) (values : List GoStr) :
    List (Option WebhookCheckboxOption) → Option ValErr
  | [] => none
  | none :: _ => some (.checkboxOptionNil i j k)
  | some o :: rest =>
    if o.value = [] then some (.checkboxOptionValueRequired i j k)
    else if maxCheckboxOptionValueLength < goLen o.value then
      some (.checkboxOptionValueTooLong i j k)
    else if o.value ∈ values then some (.checkboxOptionValueNotUnique i j k)
    else if maxWebhookCheckboxOptionTextLength < goLen o.text then
      some (.checkboxOptionTextTooLong i j k)
    else checkboxOptionScan i j (k + 1) (o.value :: values) rest

/-- The checkbox-input loop of `ValidateWebhooks` (lines 933-985); `ids` is
the id set shared with the plain-text inputs of the same webhook. -/
def checkboxInputScan (i j : Nat) (ids : List GoStr) :
    List (Option WebhookCheckboxInput) → Option ValErr
  | [] => none
  | none :: _ => some (.checkboxInputNil i j)
  | some inp :: rest =>
    if inp.id = [] then some (.checkboxInputIDRequired i j)
    else if inp.id ∈ ids then some (.checkboxInputIDNotUnique i j)
    else if maxWebhookInputIDLength < goLen inp.id then some (.checkboxInputIDTooLong i j)
    else if maxWebhookInputLabelLength < goLen inp.label then
      some (.checkboxInputLabelTooLong i j)
    else if maxWebhookCheckboxOptionCount < inp.options.length then
      some (.checkboxInputOptionsTooMany i j)
    else
      match checkboxOptionScan i j 0 [] inp.options with
      | some e => some e
      | none => checkboxInputScan i (j + 1) (inp.id :: ids) rest

/-- The plain-text-input loop of `ValidateWebhooks` (lines 881-931); on
success it also returns the accumulated id set, which the checkbox loop
continues to use. -/
def plainTextInputScan (i j : Nat) (ids : List GoStr) :
    List (Option WebhookPlainTextInput) → Option ValErr × List GoStr
  | [] => (none, ids)
  | none :: _ => (some (.plainTextInputNil i j), ids)
  | some inp :: rest =>
    if inp.id = [] then (some (.plainTextInputIDRequired i j), ids)
    else if inp.id ∈ ids then (some (.plainTextInputIDNotUnique i j), ids)
    else if maxWebhookInputIDLength < goLen inp.id then
      (some (.plainTextInputIDTooLong i j), ids)
    else if maxWebhookInputDescriptionLength < goLen inp.description then
      (some (.plainTextInputDescriptionTooLong i j), ids)
    else if inp.minLength < 0 then (some (.plainTextInputMinLengthNeg i j), ids)
    else if maxWebhookInputTextLength < inp.minLength then
      (some (.plainTextInputMinLengthTooLarge i j), ids)
    else if inp.maxLength < 0 then (some (.plainTextInputMaxLengthNeg i j), ids)
    else if maxWebhookInputTextLength < inp.maxLength then
      (some (.plainTextInputMaxLengthTooLarge i j), ids)
    else if inp.maxLength < inp.minLength then (some (.plainTextInputMaxLtMin i j), ids)
    else if inp.maxLength < (goLen inp.initialValue : Int) then
      (some (.plainTextInputInitialTooLong i j), ids)
    else if (goLen inp.initialValue : Int) < inp.minLength then
      (some (.plainTextInputInitialTooShort i j), ids)
    else plainTextInputScan i (j + 1) (inp.id :: ids) rest

/-- The per-webhook body of `ValidateWebhooks` after the id-uniqueness
bookkeeping (lines 821-985). -/
def webhookBodyCheck (u : UrlChecks) (i : Nat) (h : Webhook) : Option ValErr :=
  if h.url = [] then some (.webhookURLRequired i)
  else if maxWebhookURLLength < goLen h.url then some (.webhookURLTooLong i)
  else if hasPrefixStr (toLowerStr h.url) "http".data then
    if ¬ u.webhookURLOk h.url then some (.webhookURLBad i) else webhookBodyCheck2 u i h
  else if ¬ isValidASCII h.url then some (.webhookURLNotASCII i)
  else webhookBodyCheck2 u i h
where
  /-- Continuation after the URL checks (lines 843-985). -/
  webhookBodyCheck2 (_u : UrlChecks) (i : Nat) (h : Webhook) : Option ValErr :=
    if h.buttonText = [] then some (.webhookButtonTextRequired i)
    else if maxWebhookButtonTextLength < goLen h.buttonText then
      some (.webhookButtonTextTooLong i)
    else if maxWebhookConfirmationTextLength < goLen h.confirmationText then
      some (.webhookConfirmationTextTooLong i)
    else if h.buttonStyle ≠ [] ∧ ¬ webhookButtonStyleIsValid h.buttonStyle then
      some (.webhookButtonStyleBad i)
    else if h.accessLevel ≠ [] ∧ ¬ webhookAccessLevelIsValid h.accessLevel then
      some (.webhookAccessLevelBad i)
    else if h.displayMode ≠ [] ∧ ¬ webhookDisplayModeIsValid h.displayMode then
      some (.webhookDisplayModeBad i)
    else if maxWebhookPayloadCount < h.payload.length then some (.webhookPayloadTooLarge i)
    else if maxWebhookPlainTextInputCount < h.plainTextInput.length then
      some (.webhookPlainTextInputTooMany i)
    else if maxWebhookCheckboxInputCount < h.checkboxInput.length then
      some (.webhookCheckboxInputTooMany i)
    else
      match plainTextInputScan i 0 [] h.plainTextInput with
      | (some e, _) => some e
      | (none, ids) => checkboxInputScan i 0 ids h.checkboxInput

/-- The webhook loop of `ValidateWebhooks` (lines 802-986); `seen` is the
set of webhook ids already encountered in this alert. -/
def webhookScan (u : UrlChecks) (i : Nat) (seen : List GoStr) :
    List (Option Webhook) → Option ValErr
  | [] => none
  | none :: _ => some (.webhookNil i)
  | some h :: rest =>
    if h.id = [] then some (.webhookIDRequired i)
    else if maxWebhookIDLength < goLen h.id then some (.webhookIDTooLong i)
    else if h.id ∈ seen then some (.webhookIDNotUnique i)
    else
      match webhookBodyCheck u i h with
      | some e => some e
      | none => webhookScan u (i + 1) (h.id :: seen) rest

/-- `Alert.ValidateWebhooks` (lines 788-989). -/
def validateWebhooks (u : UrlChecks) (a : Alert) : Option ValErr :=
  if maxWebhookCount < a.webhooks.length then some .tooManyWebhooks
  else webhookScan u 0 [] a.webhooks

/-- The escalation loop of `ValidateEscalation` (lines 1003-1039);
`previousDelay` starts at 0, meaning "no previous delay seen". -/
def escalationScan (i : Nat) (previousDelay : Int) :
    List (Option Escalation) → Option ValErr
  | [] => none
  | none :: _ => some (.escalationNil i)
  | some e :: rest =>
    if e.delaySeconds < minEscalationDelaySeconds then some (.escalationDelayTooLow i)
    else if 0 < previousDelay ∧ e.delaySeconds - previousDelay < minEscalationDelayDiffSeconds then
      some (.escalationDelayDiffTooSmall i)
    else if e.severity ≠ "panic".data ∧ e.severity ≠ "error".data ∧ e.severity ≠ "warning".data then
      some (.escalationSeverityBad i)
    else if maxEscalationSlackMentionCount < e.slackMentions.length then
      some (.escalationMentionsTooMany i)
    else
      match mentionScan i 0 e.slackMentions with
      | some err => some err
      | none =>
        if e.moveToChannel ≠ [] ∧ ¬ slackChannelIDOrNameMatch e.moveToChannel then
          some (.escalationMoveToChannelBad i)
        else escalationScan (i + 1) e.delaySeconds rest
where
  /-- The mention loop (lines 1028-1032). -/
  mentionScan (i j : Nat) : List GoStr → Option ValErr
    | [] => none
    | m :: rest =>
      if ¬ slackMentionMatch m then some (.escalationMentionBad i j)
      else mentionScan i (j + 1) rest

/-- `Alert.ValidateEscalation` (lines 991-1042). -/
def validateEscalation (a : Alert) : Option ValErr :=
  if maxEscalationCount < a.escalation.length then some .escalationTooMany
  else escalationScan 0 0 a.escalation

/-- `Alert.Validate` on a non-nil receiver (lines 617-657): the ordered,
short-circuiting battery of checks. -/
def validate (u : UrlChecks) (a : Alert) : Option ValErr :=
  match validateSlackChannelIDAndRouteKey a with
  | some e => some e
  | none =>
  match validateHeaderAndText a with
  | some e => some e
  | none =>
  match validateIcon a with
  | some e => some e
  | none =>
  match validateLink u a with
  | some e => some e
  | none =>
  match validateSeverity a with
  | some e => some e
  | none =>
  match validateCorrelationID a with
  | some e => some e
  | none =>
  match validateAutoResolve a with
  | some e => some e
  | none =>
  match validateFields a with
  | some e => some e
  | none =>
  match validateWebhooks u a with
  | some e => some e
  | none =>
  match validateEscalation a with
  | some e => some e
  | none => validateIgnoreIfTextContains a

/-- `Alert.Validate` including the nil-receiver check (lines 612-615). -/
def validateCall (u : UrlChecks) : Option Alert → Option ValErr
  | none => some .alertNil
  | some a => validate u a

/-! ## The identity hash (`hash`, `alert.go` lines 1078-1091).

`hash` absorbs, for each input string, its raw bytes followed by one NUL
delimiter byte into a SHA-256 digest, and encodes the digest with
`base64.URLEncoding` (the URL-safe alphabet *with* `=` padding).  Byte
strings are `List Nat` with elements `< 256`. -/

/-- Concatenation of the absorbed bytes: each input followed by the NUL
delimiter (the `h.Write` loop, lines 1083-1086). -/
def hashInput (input : List (List Nat)) : List Nat :=
  (input.map (fun s => s ++ [0])).flatten

def mod32 (n : Nat) : Nat := n % 4294967296

def rotr32 (n x : Nat) : Nat := mod32 ((x >>> n) ||| (x <<< (32 - n)))

def bsig0 (x : Nat) : Nat := (rotr32 2 x) ^^^ (rotr32 13 x) ^^^ (rotr32 22 x)

def bsig1 (x : Nat) : Nat := (rotr32 6 x) ^^^ (rotr32 11 x) ^^^ (rotr32 25 x)

def ssig0 (x : Nat) : Nat := (rotr32 7 x) ^^^ (rotr32 18 x) ^^^ (x >>> 3)

def ssig1 (x : Nat) : Nat := (rotr32 17 x) ^^^ (rotr32 19 x) ^^^ (x >>> 10)

def chFn (x y z : Nat) : Nat := (x &&& y) ^^^ ((x ^^^ 4294967295) &&& z)

def majFn (x y z : Nat) : Nat := (x &&& y) ^^^ (x &&& z) ^^^ (y &&& z)

def sha256K : List Nat :=
  [1116352408, 1899447441, 3049323471, 3921009573, 961987163, 1508970993,
   2453635748, 2870763221, 3624381080, 310598401, 607225278, 1426881987,
   1925078388, 2162078206, 2614888103, 3248222580, 3835390401, 4022224774,
   264347078, 604807628, 770255983, 1249150122, 1555081692, 1996064986,
   2554220882, 2821834349, 2952996808, 3210313671, 3336571891, 3584528711,
   113926993, 338241895, 666307205, 773529912, 1294757372, 1396182291,
   1695183700, 1986661051, 2177026350, 2456956037, 2730485921, 2820302411,
   3259730800, 3345764771, 3516065817, 3600352804, 4094571909, 275423344,
   430227734, 506948616, 659060556, 883997877, 958139571, 1322822218,
   1537002063, 1747873779, 1955562222, 2024104815, 2227730452, 2361852424,
   2428436474, 2756734187, 3204031479, 3329325298]

/-- The eight working registers of the compression function. -/
structure Sha256State where
  a : Nat
  b : Nat
  c : Nat
  d : Nat
  e : Nat
  f : Nat
  g : Nat
  h : Nat

def sha256H0 : Sha256State :=
  ⟨1779033703, 3144134277, 1013904242, 2773480762,
   1359893119, 2600822924, 528734635, 1541459225⟩

def compressStep (st : Sha256State) (k w : Nat) : Sha256State :=
  let t1 := mod32 (st.h + bsig1 st.e + chFn st.e st.f st.g + k + w)
  let t2 := mod32 (bsig0 st.a + majFn st.a st.b st.c)
  ⟨mod32 (t1 + t2), st.a, st.b, st.c, mod32 (st.d + t1), st.e, st.f, st.g⟩

/-- Big-endian 32-bit words from bytes. -/
def toWordsBE : List Nat → List Nat
  | b0 :: b1 :: b2 :: b3 :: rest =>
    (((b0 * 256 + b1) * 256 + b2) * 256 + b3) :: toWordsBE rest
  | _ => []

/-- Message-schedule extension from 16 to 64 words. -/
def schedule (w : List Nat) : List Nat :=
  (List.range 48).foldl
    (fun ws _ =>
      let n := ws.length
      ws ++ [mod32 (ssig1 (ws.getD (n - 2) 0) + ws.getD (n - 7) 0 +
                    ssig0 (ws.getD (n - 15) 0) + ws.getD (n - 16) 0)])
    w

def compressBlock (h0 : Sha256State) (block : List Nat) : Sha256State :=
  let ws := schedule (toWordsBE block)
  let st := (sha256K.zip ws).foldl (fun st kw => compressStep st kw.1 kw.2) h0
  ⟨mod32 (h0.a + st.a), mod32 (h0.b + st.b), mod32 (h0.c + st.c), mod32 (h0.d + st.d),
   mod32 (h0.e + st.e), mod32 (h0.f + st.f), mod32 (h0.g + st.g), mod32 (h0.h + st.h)⟩

def processBlocks (h0 : Sha256State) (msg : List Nat) : Sha256State :=
  match msg with
  | [] => h0
  | m :: rest => processBlocks (compressBlock h0 ((m :: rest).take 64)) ((m :: rest).drop 64)
termination_by msg.length
decreasing_by simp; omega

/-- Big-endian 64-bit length field of the padding. -/
def be64 (n : Nat) : List Nat :=
  [n / 72057594037927936 % 256, n / 281474976710656 % 256, n / 1099511627776 % 256,
   n / 4294967296 % 256, n / 16777216 % 256, n / 65536 % 256, n / 256 % 256, n % 256]

/-- SHA-256 padding: `0x80`, zeros to 56 mod 64, then the bit length. -/
def sha256Pad (msg : List Nat) : List Nat :=
  msg ++ 0x80 :: (List.replicate ((64 - (msg.length + 9) % 64) % 64) 0 ++ be64 (8 * msg.length))

def wordToBytesBE (w : Nat) : List Nat :=
  [w / 16777216 % 256, w / 65536 % 256, w / 256 % 256, w % 256]

/-- `sha256.Sum` of a byte string, as the 32 digest bytes. -/
def sha256 (msg : List Nat) : List Nat :=
  let st := processBlocks sha256H0 (sha256Pad msg)
  wordToBytesBE st.a ++ wordToBytesBE st.b ++ wordToBytesBE st.c ++ wordToBytesBE st.d ++
    wordToBytesBE st.e ++ wordToBytesBE st.f ++ wordToBytesBE st.g ++ wordToBytesBE st.h

/-- The URL-safe base64 alphabet (RFC 4648 §5). -/
def b64Alphabet : GoStr :=
  "ABCDEFGHIJKLMNOPQRSTUVWXYZabcdefghijklmnopqrstuvwxyz0123456789-_".data

def b64Char (n : Nat) : Char := b64Alphabet.getD n 'A'

/-- `base64.URLEncoding.EncodeToString`: URL-safe alphabet *with* `=`
padding (Go's `URLEncoding` is padded; `RawURLEncoding` would be the
unpadded variant). -/
def b64UrlEncode : List Nat → GoStr
  | a :: b :: c :: rest =>
    b64Char (a / 4) :: b64Char ((a % 4) * 16 + b / 16) ::
      b64Char ((b % 16) * 4 + c / 64) :: b64Char (c % 64) :: b64UrlEncode rest
  | [a, b] => [b64Char (a / 4), b64Char ((a % 4) * 16 + b / 16), b64Char ((b % 16) * 4), '=']
  | [a] => [b64Char (a / 4), b64Char ((a % 4) * 16), '=', '=']
  | [] => []

/-- Decoder used only to prove the encoder injective. -/
def b64Val (c : Char) : Nat := b64Alphabet.indexOf c

def b64UrlDecode : GoStr → List Nat
  | c1 :: c2 :: c3 :: c4 :: rest =>
    if c4 = '=' then
      if c3 = '=' then [b64Val c1 * 4 + b64Val c2 / 16]
      else [b64Val c1 * 4 + b64Val c2 / 16, (b64Val c2 % 16) * 16 + b64Val c3 / 4]
    else
      (b64Val c1 * 4 + b64Val c2 / 16) :: ((b64Val c2 % 16) * 16 + b64Val c3 / 4) ::
        ((b64Val c3 % 4) * 64 + b64Val c4) :: b64UrlDecode rest
  | _ => []

/-- The hash pipeline with the digest left abstract (used to state claims
that assume an injective digest). -/
def hashWith (digest : List Nat → List Nat) (input : List (List Nat)) : GoStr :=
  b64UrlEncode (digest (hashInput input))

/-- `hash` (`alert.go` lines 1078-1091). -/
def hash (input : List (List Nat)) : GoStr := hashWith sha256 input

/-- UTF-8 encoding of a text string's codepoints, for feeding text fields
to the byte-level hash (`Alert.UniqueID`). -/
def utf8Bytes (s : GoStr) : List Nat :=
  (s.map fun c =>
    let n := c.toNat
    if n < 0x80 then [n]
    else if n < 0x800 then [0xC0 + n / 64, 0x80 + n % 64]
    else if n < 0x10000 then [0xE0 + n / 4096, 0x80 + n / 64 % 64, 0x80 + n % 64]
    else [0xF0 + n / 262144, 0x80 + n / 4096 % 64, 0x80 + n / 64 % 64, 0x80 + n % 64]).flatten

/-- `Alert.UniqueID` (lines 456-460), parameterised by the timestamp
formatter (`Timestamp.UTC().Format(time.RFC3339Nano)`), whose calendar
arithmetic is outside the modelled claims. -/
def uniqueID (fmtTs : Int → List Nat) (a : Alert) : GoStr :=
  hash ["alert".data.map Char.toNat, utf8Bytes a.slackChannelID, utf8Bytes a.routeKey,
        utf8Bytes a.correlationID, fmtTs a.timestamp, utf8Bytes a.header, utf8Bytes a.text]

/-- The zero value `types.Alert{}` of the Go struct: every field empty,
zero or false. -/
def zeroAlert : Alert :=
  { timestamp := 0, correlationID := [], type := [], header := [],
    headerWhenResolved := [], text := [], textWhenResolved := [], fallbackText := [],
    author := [], host := [], footer := [], link := [], issueFollowUpEnabled := false,
    autoResolveSeconds := 0, autoResolveAsInconclusive := false, severity := [],
    slackChannelID := [], routeKey := [], username := [], iconEmoji := [], fields := [],
    notificationDelaySeconds := 0, archivingDelaySeconds := 0, escalation := [],
    ignoreIfTextContains := [], webhooks := [], metadata := [],
    failOnRateLimitError := false }

/-! ## Claim C10: Validate measures length bounds in UTF-8 bytes -/

/-- A plain-text input whose initial value has exactly `maxLength`
codepoints but twice as many bytes (10 copies of `é`). -/
def multibyteInput : WebhookPlainTextInput :=
  { id := "x".data, description := [], minLength := 0, maxLength := 10,
    multiline := false, initialValue := List.replicate 10 (Char.ofNat 0xE9) }

/-- An otherwise-valid webhook (opaque non-http handler target) carrying
`multibyteInput`. -/
def multibyteWebhook : Webhook :=
  { id := "w".data, url := "h".data, confirmationText := [], buttonText := "b".data,
    buttonStyle := [], accessLevel := [], displayMode := [], payload := [],
    plainTextInput := [some multibyteInput], checkboxInput := [] }

/-! ## Claim C7: escalation delay floor and spacing -/

/-- An escalation entry that passes every check other than the delay
checks: active severity, mention count and format, move-target channel. -/
abbrev EscOtherOk (e : Escalation) : Prop :=
  (e.severity = "panic".data ∨ e.severity = "error".data ∨ e.severity = "warning".data) ∧
  e.slackMentions.length ≤ maxEscalationSlackMentionCount ∧
  (∀ m ∈ e.slackMentions, slackMentionMatch m = true) ∧
  (e.moveToChannel ≠ [] → slackChannelIDOrNameMatch e.moveToChannel = true)

/-- Consecutive delays spaced at least `MinEscalationDelayDiffSeconds`
apart (used only to state the claim). -/
def spacedOk : List Int → Bool
  | x :: y :: rest => decide (minEscalationDelayDiffSeconds ≤ y - x) && spacedOk (y :: rest)
  | _ => true

/-- "entry `i` is rejected for too-small spacing": a previous delay `> 0`
has been seen (equivalently `0 < i`, since every earlier delay passed the
30-second floor), every entry up to and including `i` passes the floor,
every earlier consecutive pair is spaced at least 30 apart, and the delay
of entry `i` minus the previous entry's delay is less than 30. -/
abbrev DiffRejectAt (ds : List Int) (i : Nat) : Prop :=
  0 < i ∧ i < ds.length ∧
  (∀ d ∈ ds.take (i + 1), minEscalationDelaySeconds ≤ d) ∧
  spacedOk (ds.take i) = true ∧
  ds.getD i 0 - ds.getD (i - 1) 0 < minEscalationDelayDiffSeconds

/-- "entry `i` is rejected for a delay below the floor": every earlier
entry passes floor and spacing, and entry `i`'s delay is below 30. -/
abbrev FloorRejectAt (ds : List Int) (i : Nat) : Prop :=
  i < ds.length ∧
  (∀ d ∈ ds.take i, minEscalationDelaySeconds ≤ d) ∧
  spacedOk (ds.take i) = true ∧
  ds.getD i 0 < minEscalationDelaySeconds

/-! ## Claim C8: the shared input-ID namespace within one webhook -/

/-- A minimal valid plain-text input carrying the id under test. -/
def ptiOf (x : GoStr) : WebhookPlainTextInput :=
  { id := x, description := [], minLength := 0, maxLength := 0, multiline := false,
    initialValue := [] }

/-- A minimal valid checkbox input carrying the id under test. -/
def cbiOf (x : GoStr) : WebhookCheckboxInput := { id := x, label := [], options := [] }

/-- An otherwise-valid webhook (opaque non-http handler target) with the
given id and inputs. -/
def hookOf (hid : GoStr) (pti : List (Option WebhookPlainTextInput))
    (cbi : List (Option WebhookCheckboxInput)) : Webhook :=
  { id := hid, url := "h".data, confirmationText := [], buttonText := "b".data,
    buttonStyle := [], accessLevel := [], displayMode := [], payload := [],
    plainTextInput := pti, checkboxInput := cbi }

/-! ## Claim C9: Validate is read-only -/

/-- One step of the short-circuit chain in `Validate`, with the receiver
state threaded explicitly: run the next check on the current state when no
error has occurred yet.  Go's sub-validators contain no assignment to the
receiver or its nested objects, so each check leaves the state as is. -/
def validateStep (check : Alert → Option ValErr) :
    Option ValErr × Alert → Option ValErr × Alert
  | (some e, a) => (some e, a)
  | (none, a) => (check a, a)

/-- `Alert.Validate` as a state transformer over the receiver: the ordered
battery of checks of lines 617-657 with the `Alert` state passed from step
to step. -/
def validateSt (u : UrlChecks) (a : Alert) : Option ValErr × Alert :=
  validateStep validateIgnoreIfTextContains <|
  validateStep validateEscalation <|
  validateStep (validateWebhooks u) <|
  validateStep validateFields <|
  validateStep validateAutoResolve <|
  validateStep validateCorrelationID <|
  validateStep validateSeverity <|
  validateStep (validateLink u) <|
  validateStep validateIcon <|
  validateStep validateHeaderAndText <|
  (validateSlackChannelIDAndRouteKey a, a)

/-- What Clean guarantees for a trim-then-truncate field with bound
`bound`, given the whitespace-normalised pre-truncation value `t`: at most
`bound` codepoints, an `...` suffix, no characters from outside `t` (so no
split codepoints), and *exactly* `bound` codepoints whenever the kept
prefix does not end in whitespace. -/
abbrev TruncSpec (t : GoStr) (bound : Nat) (result : GoStr) : Prop :=
  bound < runeCount t →
    runeCount result ≤ bound ∧ ellipsis <:+ result ∧
    (∀ c ∈ result, c ∈ t ∨ c = '.') ∧
    (((t.take (bound - 3)).getLast?.all fun c => !isGoSpace c) = true →
      runeCount result = bound)

/-- What Clean guarantees for a body text whose trimmed value `t` exceeds
the bound and ends in a closing code fence. -/
abbrev FenceSpec (t result : GoStr) : Prop :=
  maxTextLength < runeCount t → hasSuffixStr t codeFence = true →
    (ellipsis ++ codeFence) <:+ result ∧ runeCount result ≤ maxTextLength ∧
    (((t.take (maxTextLength - 6)).getLast?.all fun c => !isGoSpace c) = true →
      runeCount result = maxTextLength)

/-- The body text of the C5 counterexample: 10001 codepoints ending in a
code fence, with a space at the truncation cut (position 9994). -/
def fenceCexText : GoStr :=
  List.replicate 9993 'a' ++ [' '] ++ List.replicate 4 'b' ++ codeFence

/-- The body text of the C5 witness: 10001 codepoints ending in a code
fence, no whitespace at the cut. -/
def fenceWitText : GoStr := List.replicate 9998 'a' ++ codeFence

/-- A representative alert exercising every cleaning step: unnormalised
strings everywhere, a negative delay, unsorted escalations with a nil
entry, nested webhook inputs, and a `"default"` button style. -/
def wField : AlertField := { title := " t ".data, value := " v ".data }

def wEsc1 : Escalation :=
  { severity := " Page ".data, delaySeconds := 90,
    slackMentions := [" @oncall ".data], moveToChannel := " ops ".data }

def wEsc2 : Escalation :=
  { severity := [], delaySeconds := 30, slackMentions := [], moveToChannel := [] }

def wOption : WebhookCheckboxOption := { value := "v".data, text := "t".data, selected := false }

def wPTI : WebhookPlainTextInput :=
  { id := " p1 ".data, description := " d ".data, minLength := 0, maxLength := 10,
    multiline := false, initialValue := " iv ".data }

def wCBI : WebhookCheckboxInput :=
  { id := " c1 ".data, label := " l ".data, options := [some wOption] }

def wHook : Webhook :=
  { id := " w1 ".data, url := " hook ".data, confirmationText := " sure ".data,
    buttonText := " Go ".data, buttonStyle := "default".data, accessLevel := [],
    displayMode := [], payload := [], plainTextInput := [some wPTI, none],
    checkboxInput := [none, some wCBI] }

def wAlert : Alert :=
  { zeroAlert with
    type := "  Disk-Full  ".data,
    header := " node down\nrestart ".data,
    text := "  body  ".data,
    fallbackText := "  status: disk  ".data,
    severity := " CRITICAL ".data,
    correlationID := " c1 ".data,
    link := " http: ".data,
    username := " bot ".data,
    iconEmoji := " :FIRE: ".data,
    fields := [some wField, none],
    notificationDelaySeconds := -5,
    archivingDelaySeconds := 7,
    escalation := [some wEsc1, none, some wEsc2],
    webhooks := [some wHook] }

-- ======================================================================
-- Theorems
-- ======================================================================

-- Basic facts about the primitives.

theorem replaceNl_singlechar_sem (s : GoStr) :
    replaceAll ['\n'] [' '] s = replaceNl s := by
  rw [replaceAll]
  induction s with
  | nil => simp [replaceAllGo, replaceNl]
  | cons c s ih =>
    rw [replaceAllGo]
    by_cases hc : c = '\n'
    · subst hc
      rw [if_pos (by simp)]
      simp only [List.length_cons, List.length_nil]
      simp [replaceNl, nlToSpace, ih]
    · rw [if_neg (by simp [List.cons_prefix_cons]; exact fun h => hc h.symm)]
      simp [replaceNl, nlToSpace, hc, ih]

theorem trimSpace_nil : trimSpace [] = [] := by simp [trimSpace]

theorem toNat_ofNat_valid {n : Nat} (h : n < 0xd800) : (Char.ofNat n).toNat = n := by
  unfold Char.ofNat
  split
  · rfl
  · rename_i hv
    exact absurd (Or.inl h) hv

theorem char_eq_of_toNat_eq {a b : Char} (h : a.toNat = b.toNat) : a = b :=
  Char.ext (UInt32.toNat.inj h)

theorem isGoSpace_eq_mem (c : Char) : isGoSpace c = decide (c ∈ goSpaceList) := rfl

theorem map_toNat_goSpaceList : goSpaceList.map Char.toNat =
    [9, 10, 11, 12, 13, 32, 0x85, 0xA0, 0x1680, 0x2000, 0x2001, 0x2002, 0x2003,
     0x2004, 0x2005, 0x2006, 0x2007, 0x2008, 0x2009, 0x200A, 0x2028, 0x2029,
     0x202F, 0x205F, 0x3000] := by decide

/-- `isGoSpace`, characterised by codepoint value. -/
theorem isGoSpace_false_iff (c : Char) :
    isGoSpace c = false ↔ c.toNat ∉ ([9, 10, 11, 12, 13, 32, 0x85, 0xA0, 0x1680,
      0x2000, 0x2001, 0x2002, 0x2003, 0x2004, 0x2005, 0x2006, 0x2007, 0x2008,
      0x2009, 0x200A, 0x2028, 0x2029, 0x202F, 0x205F, 0x3000] : List Nat) := by
  rw [isGoSpace_eq_mem, decide_eq_false_iff_not]
  constructor
  · intro hn hmem
    apply hn
    rw [← map_toNat_goSpaceList] at hmem
    rcases List.mem_map.mp hmem with ⟨d, hd, hdc⟩
    rwa [char_eq_of_toNat_eq hdc] at hd
  · intro hn hmem
    exact hn (map_toNat_goSpaceList ▸ List.mem_map_of_mem Char.toNat hmem)

/-- Letters (either case) are not space codepoints. -/
theorem isGoSpace_false_of_letter {c : Char} (h1 : 65 ≤ c.toNat) (h2 : c.toNat ≤ 122) :
    isGoSpace c = false := by
  rw [isGoSpace_false_iff]
  simp only [List.mem_cons, List.not_mem_nil, or_false]
  omega

theorem lowerChar_toNat_of_upper {c : Char} (h : 65 ≤ c.toNat ∧ c.toNat ≤ 90) :
    (lowerChar c).toNat = c.toNat + 32 := by
  rw [lowerChar, if_pos h]
  exact toNat_ofNat_valid (by omega)

theorem lowerChar_idem (c : Char) : lowerChar (lowerChar c) = lowerChar c := by
  by_cases h : 65 ≤ c.toNat ∧ c.toNat ≤ 90
  · have ht := lowerChar_toNat_of_upper h
    rw [lowerChar, if_neg (by omega)]
  · have h0 : lowerChar c = c := by rw [lowerChar, if_neg h]
    rw [h0]
    exact h0

theorem isGoSpace_lowerChar (c : Char) : isGoSpace (lowerChar c) = isGoSpace c := by
  by_cases h : 65 ≤ c.toNat ∧ c.toNat ≤ 90
  · have ht := lowerChar_toNat_of_upper h
    rw [isGoSpace_false_of_letter (c := lowerChar c) (by omega) (by omega),
        isGoSpace_false_of_letter h.1 (by omega)]
  · rw [lowerChar, if_neg h]

theorem upperChar_toNat_of_lower {c : Char} (h : 97 ≤ c.toNat ∧ c.toNat ≤ 122) :
    (upperChar c).toNat = c.toNat - 32 := by
  rw [upperChar, if_pos h]
  exact toNat_ofNat_valid (by omega)

theorem upperChar_idem (c : Char) : upperChar (upperChar c) = upperChar c := by
  by_cases h : 97 ≤ c.toNat ∧ c.toNat ≤ 122
  · have ht := upperChar_toNat_of_lower h
    rw [upperChar, if_neg (by omega)]
  · have h0 : upperChar c = c := by rw [upperChar, if_neg h]
    rw [h0]
    exact h0

theorem isGoSpace_upperChar (c : Char) : isGoSpace (upperChar c) = isGoSpace c := by
  by_cases h : 97 ≤ c.toNat ∧ c.toNat ≤ 122
  · have ht := upperChar_toNat_of_lower h
    rw [isGoSpace_false_of_letter (c := upperChar c) (by omega) (by omega),
        isGoSpace_false_of_letter (by omega) h.2]
  · rw [upperChar, if_neg h]

theorem isGoSpace_nlToSpace (c : Char) : isGoSpace (nlToSpace c) = isGoSpace c := by
  rw [nlToSpace]
  split
  · rename_i h; rw [h]; decide
  · rfl

theorem nlToSpace_no_nl (c : Char) : nlToSpace c ≠ '\n' := by
  rw [nlToSpace]
  split
  · decide
  · rename_i h; exact h

theorem nlToSpace_idem (c : Char) : nlToSpace (nlToSpace c) = nlToSpace c := by
  rw [show nlToSpace (nlToSpace c) = if nlToSpace c = '\n' then ' ' else nlToSpace c from rfl,
     if_neg (nlToSpace_no_nl c)]

-- Facts about trimming.

/-- The left-trimming half of `trimSpace`. -/
theorem trimSpace_eq (s : GoStr) :
    trimSpace s = ((s.dropWhile isGoSpace).reverse.dropWhile isGoSpace).reverse := rfl

theorem trimSpace_prefix_dropWhile (s : GoStr) : trimSpace s <+: s.dropWhile isGoSpace := by
  have h1 : (s.dropWhile isGoSpace).reverse.dropWhile isGoSpace <:+ (s.dropWhile isGoSpace).reverse :=
    List.dropWhile_suffix _
  simpa [trimSpace_eq] using List.reverse_prefix.mpr h1

theorem trimSpace_infix_self (s : GoStr) : trimSpace s <:+: s :=
  (trimSpace_prefix_dropWhile s).isInfix.trans (List.dropWhile_suffix _).isInfix

theorem trimSpace_length_le (s : GoStr) : (trimSpace s).length ≤ s.length :=
  (trimSpace_infix_self s).sublist.length_le

theorem trimSpace_head (s : GoStr) {c : Char} (h : (trimSpace s).head? = some c) :
    isGoSpace c = false := by
  obtain ⟨t, ht⟩ := trimSpace_prefix_dropWhile s
  have hh : (s.dropWhile isGoSpace).head? = some c := by
    rw [← ht, List.head?_append, h]
    rfl
  have := List.head?_dropWhile_not isGoSpace s
  rw [hh] at this
  exact this

theorem trimSpace_getLast (s : GoStr) {c : Char} (h : (trimSpace s).getLast? = some c) :
    isGoSpace c = false := by
  rw [trimSpace_eq, List.getLast?_reverse] at h
  have := List.head?_dropWhile_not isGoSpace (s.dropWhile isGoSpace).reverse
  rw [h] at this
  exact this

theorem dropWhile_eq_self_of_head {p : Char → Bool} {s : GoStr}
    (h : ∀ c, s.head? = some c → p c = false) : s.dropWhile p = s := by
  cases s with
  | nil => rfl
  | cons a t =>
    rw [List.dropWhile_cons, if_neg]
    rw [h a rfl]
    simp

/-- `TrimSpace` is the identity on strings whose two ends are not spaces. -/
theorem trimSpace_eq_self {s : GoStr}
    (h1 : ∀ c, s.head? = some c → isGoSpace c = false)
    (h2 : ∀ c, s.getLast? = some c → isGoSpace c = false) : trimSpace s = s := by
  rw [trimSpace_eq, dropWhile_eq_self_of_head h1, dropWhile_eq_self_of_head, List.reverse_reverse]
  intro c hc
  rw [List.head?_reverse] at hc
  exact h2 c hc

theorem trimSpace_idem (s : GoStr) : trimSpace (trimSpace s) = trimSpace s :=
  trimSpace_eq_self (fun _ h => trimSpace_head s h) (fun _ h => trimSpace_getLast s h)

-- Facts about infix occurrences and `replaceAll`.

theorem replaceAll_of_not_infix {pat rep s : GoStr} (h : ¬ pat <:+: s) :
    replaceAll pat rep s = s := by
  rw [replaceAll]
  induction s with
  | nil => rw [replaceAllGo]
  | cons c t ih =>
    rw [replaceAllGo, if_neg, ih (fun hi => h (List.infix_cons hi))]
    rintro ⟨hp, -⟩
    exact h hp.isInfix

theorem not_infix_of_infix_take {pat s : GoStr} {n : Nat} (h : ¬ pat <:+: s) :
    ¬ pat <:+: s.take n :=
  fun hi => h (hi.trans (List.take_prefix n s).isInfix)

theorem not_infix_of_trimSpace {pat s : GoStr} (h : ¬ pat <:+: s) :
    ¬ pat <:+: trimSpace s :=
  fun hi => h (hi.trans (trimSpace_infix_self s))

/-- An occurrence in `l ++ [a]` is an occurrence in `l`, unless it uses the
last element. -/
theorem infix_concat_elim {pat l : GoStr} {a : Char} (h : pat <:+: l ++ [a]) :
    pat <:+: l ∨ a ∈ pat := by
  obtain ⟨s, t, hst⟩ := h
  rcases List.eq_nil_or_concat t with ht | ⟨t', d, ht⟩
  · subst ht
    rw [List.append_nil] at hst
    rcases List.eq_nil_or_concat pat with hp | ⟨p', b, hp⟩
    · subst hp; exact Or.inl List.nil_infix
    · subst hp
      right
      rw [List.concat_eq_append, ← List.append_assoc] at hst
      have hba := (List.append_inj' hst (by simp)).2
      have : b = a := by simpa using hba
      rw [this] at *
      simp
  · subst ht
    left
    rw [List.concat_eq_append, ← List.append_assoc] at hst
    have h1 := (List.append_inj' hst (by simp)).1
    exact ⟨s, t', h1⟩

/-- Appending characters that do not occur in the pattern cannot create an
occurrence. -/
theorem not_infix_append_disjoint {pat u v : GoStr} (h : ¬ pat <:+: u)
    (hd : ∀ c ∈ v, c ∉ pat) : ¬ pat <:+: u ++ v := by
  induction v using List.reverseRecOn with
  | nil => simpa using h
  | append_singleton v' a ih =>
    intro hi
    rw [← List.append_assoc] at hi
    rcases infix_concat_elim hi with hi' | ha
    · exact ih (fun c hc => hd c (by simp [hc])) hi'
    · exact hd a (by simp) ha

/-- If a substitution fixes every character it maps into the pattern, then
pattern preimages are the pattern itself. -/
theorem map_eq_pat_self {f : Char → Char} {pat l : GoStr}
    (hf : ∀ d, f d ∈ pat → f d = d) (hm : l.map f = pat) : l = pat := by
  induction l generalizing pat with
  | nil => exact hm.symm ▸ rfl
  | cons d tl ih =>
    cases pat with
    | nil => simpa using hm
    | cons e tp =>
      rw [List.map_cons, List.cons.injEq] at hm
      obtain ⟨he, htp⟩ := hm
      have hde : d = e := by
        have hmem : f d ∈ e :: tp := by rw [he]; exact List.mem_cons_self e tp
        have := hf d hmem
        rw [he] at this
        exact this.symm
      rw [List.cons.injEq]
      refine ⟨hde, ih ?_ htp⟩
      intro x hx
      exact hf x (List.mem_cons_of_mem e hx)

/-- A pointwise substitution that fixes every character it maps into the
pattern cannot create an occurrence. -/
theorem not_infix_map {pat s : GoStr} {f : Char → Char}
    (hf : ∀ d, f d ∈ pat → f d = d) (h : ¬ pat <:+: s) : ¬ pat <:+: s.map f := by
  intro hi
  apply h
  obtain ⟨u, t, hut⟩ := hi
  rcases List.map_eq_append_iff.mp hut.symm with ⟨l₁, l₂, hl, hm1, hm2⟩
  rcases List.map_eq_append_iff.mp hm1 with ⟨l₃, l₄, hl2, hm3, hm4⟩
  have hpat : l₄ = pat := map_eq_pat_self hf hm4
  refine ⟨l₃, l₂, ?_⟩
  rw [hl, hl2, hpat, List.append_assoc]

/-! ## Facts about the hash pipeline -/

theorem wordToBytesBE_bytes_lt {w b : Nat} (h : b ∈ wordToBytesBE w) : b < 256 := by
  simp only [wordToBytesBE, List.mem_cons, List.not_mem_nil, or_false] at h
  rcases h with h | h | h | h <;> omega

theorem sha256_bytes_lt (msg : List Nat) : ∀ b ∈ sha256 msg, b < 256 := by
  intro b hb
  simp only [sha256, List.mem_append] at hb
  rcases hb with ((((((h | h) | h) | h) | h) | h) | h) | h <;>
    exact wordToBytesBE_bytes_lt h

theorem sha256_length (msg : List Nat) : (sha256 msg).length = 32 := by
  simp [sha256, wordToBytesBE]

theorem b64Alphabet_length : b64Alphabet.length = 64 := by decide

theorem b64Char_mem (n : Nat) : b64Char n ∈ b64Alphabet := by
  by_cases h : n < 64
  · rw [b64Char, List.getD_eq_getElem?_getD, List.getElem?_eq_getElem (by
      rw [b64Alphabet_length]; exact h)]
    exact List.getElem_mem _
  · rw [b64Char, List.getD_eq_getElem?_getD, List.getElem?_eq_none (by
      rw [b64Alphabet_length]; omega)]
    decide

theorem b64Char_ne_pad (n : Nat) : b64Char n ≠ '=' := by
  intro h
  have := b64Char_mem n
  rw [h] at this
  exact absurd this (by decide)

theorem b64Val_b64Char : ∀ n, n < 64 → b64Val (b64Char n) = n := by decide

/-- Decoding inverts encoding on valid byte strings. -/
theorem b64UrlDecode_encode : ∀ bs : List Nat, (∀ b ∈ bs, b < 256) →
    b64UrlDecode (b64UrlEncode bs) = bs := by
  intro bs
  induction bs using b64UrlEncode.induct with
  | case1 a b c rest ih =>
    intro hv
    have ha : a < 256 := hv a (by simp)
    have hb : b < 256 := hv b (by simp)
    have hc : c < 256 := hv c (by simp)
    rw [b64UrlEncode, b64UrlDecode, if_neg (b64Char_ne_pad _),
      b64Val_b64Char _ (by omega), b64Val_b64Char _ (by omega),
      b64Val_b64Char _ (by omega), b64Val_b64Char _ (by omega),
      ih (fun x hx => hv x (by simp [hx]))]
    congr 1
    · omega
    congr 1
    · omega
    congr 1
    omega
  | case2 a b =>
    intro hv
    have ha : a < 256 := hv a (by simp)
    have hb : b < 256 := hv b (by simp)
    rw [b64UrlEncode, b64UrlDecode, if_pos rfl, if_neg (b64Char_ne_pad _),
      b64Val_b64Char _ (by omega), b64Val_b64Char _ (by omega),
      b64Val_b64Char _ (by omega)]
    congr 1
    · omega
    congr 1
    omega
  | case3 a =>
    intro hv
    have ha : a < 256 := hv a (by simp)
    rw [b64UrlEncode, b64UrlDecode, if_pos rfl, if_pos rfl,
      b64Val_b64Char _ (by omega), b64Val_b64Char _ (by omega)]
    congr 1
    omega
  | case4 => intro _; rfl

/-- The padded URL-safe encoder is injective on valid byte strings. -/
theorem b64UrlEncode_inj {xs ys : List Nat} (hx : ∀ b ∈ xs, b < 256)
    (hy : ∀ b ∈ ys, b < 256) (h : b64UrlEncode xs = b64UrlEncode ys) : xs = ys := by
  have := congrArg b64UrlDecode h
  rwa [b64UrlDecode_encode xs hx, b64UrlDecode_encode ys hy] at this

/-- Splitting at the NUL delimiter: NUL-free heads agree. -/
theorem nul_split {u v a b : List Nat} (hu : 0 ∉ u) (hv : 0 ∉ v)
    (h : u ++ 0 :: a = v ++ 0 :: b) : u = v ∧ a = b := by
  induction u generalizing v with
  | nil =>
    cases v with
    | nil => simpa using h
    | cons d v' =>
      rw [List.nil_append, List.cons_append, List.cons.injEq] at h
      exact absurd (h.1 ▸ List.mem_cons_self d v') hv
  | cons d u' ih =>
    cases v with
    | nil =>
      rw [List.nil_append, List.cons_append, List.cons.injEq] at h
      exact absurd (h.1.symm ▸ List.mem_cons_self d u') hu
    | cons e v' =>
      rw [List.cons_append, List.cons_append, List.cons.injEq] at h
      have := ih (fun hm => hu (List.mem_cons_of_mem d hm))
        (fun hm => hv (List.mem_cons_of_mem e hm)) h.2
      exact ⟨by rw [List.cons.injEq]; exact ⟨h.1, this.1⟩, this.2⟩

/-- Structure of the padded encoding of a byte string of length `3k+2`
(such as a 32-byte SHA-256 digest): one trailing `=`, everything before it
in the URL-safe alphabet. -/
theorem b64UrlEncode_rem2 : ∀ bs : List Nat, bs.length % 3 = 2 →
    (b64UrlEncode bs).length = (bs.length / 3) * 4 + 4 ∧
    (b64UrlEncode bs).getLast? = some '=' ∧
    ∀ c ∈ (b64UrlEncode bs).dropLast, c ∈ b64Alphabet := by
  intro bs
  induction bs using b64UrlEncode.induct with
  | case1 a b c rest ih =>
    intro hlen
    simp only [List.length_cons] at hlen
    obtain ⟨ihl, ihg, ihd⟩ := ih (by omega)
    have hne : b64UrlEncode rest ≠ [] := by
      intro hnil
      rw [hnil] at ihl
      simp at ihl
    have heq : b64UrlEncode (a :: b :: c :: rest) =
        [b64Char (a / 4), b64Char ((a % 4) * 16 + b / 16),
         b64Char ((b % 16) * 4 + c / 64), b64Char (c % 64)] ++ b64UrlEncode rest := by
      rw [b64UrlEncode]
      rfl
    refine ⟨?_, ?_, ?_⟩
    · rw [heq, List.length_append, ihl]
      simp only [List.length_cons, List.length_nil]
      omega
    · rw [heq, List.getLast?_append, ihg]
      rfl
    · rw [heq, List.dropLast_append_of_ne_nil _ hne]
      intro x hx
      rcases List.mem_append.mp hx with hx | hx
      · simp only [List.mem_cons, List.not_mem_nil, or_false] at hx
        rcases hx with h | h | h | h <;> (rw [h]; exact b64Char_mem _)
      · exact ihd x hx
  | case2 a b =>
    intro _
    refine ⟨by rw [b64UrlEncode]; simp, by rw [b64UrlEncode]; rfl, ?_⟩
    rw [b64UrlEncode]
    intro x hx
    simp only [List.dropLast, List.mem_cons, List.not_mem_nil, or_false] at hx
    rcases hx with h | h | h <;> (rw [h]; exact b64Char_mem _)
  | case3 a => intro hlen; simp at hlen
  | case4 => intro hlen; simp at hlen

theorem pad_not_mem_b64Alphabet : '=' ∉ b64Alphabet := by decide

/-- The absorbed byte sequence determines the inputs, provided no input
contains the NUL delimiter byte. -/
theorem hashInput_inj : ∀ xs ys : List (List Nat), (∀ s ∈ xs, 0 ∉ s) →
    (∀ s ∈ ys, 0 ∉ s) → hashInput xs = hashInput ys → xs = ys := by
  intro xs
  induction xs with
  | nil =>
    intro ys _ _ h
    cases ys with
    | nil => rfl
    | cons y ys' =>
      exfalso
      simp only [hashInput, List.map_nil, List.flatten_nil, List.map_cons,
        List.flatten_cons] at h
      have := congrArg List.length h
      simp at this
      omega
  | cons x xs' ih =>
    intro ys hx hy h
    cases ys with
    | nil =>
      exfalso
      simp only [hashInput, List.map_nil, List.flatten_nil, List.map_cons,
        List.flatten_cons] at h
      have := congrArg List.length h
      simp at this
    | cons y ys' =>
      simp only [hashInput, List.map_cons, List.flatten_cons] at h
      rw [List.append_assoc, List.append_assoc, List.singleton_append,
        List.singleton_append] at h
      obtain ⟨h1, h2⟩ := nul_split (hx x (by simp)) (hy y (by simp)) h
      have := ih ys' (fun s hs => hx s (by simp [hs])) (fun s hs => hy s (by simp [hs]))
        (by simpa [hashInput] using h2)
      rw [h1, this]

/-! ## Claim C3: determinism and injectivity of the identity hash -/

/-- C3 (counterexample): as stated over *all* string sequences the claim is
false: a NUL byte inside an input collides with the NUL delimiter, so the
distinct sequences `["a\x00"]` and `["a", ""]` hash identically (the real
`hash`, with the real SHA-256, agrees byte for byte). -/
theorem hash_nul_collision :
    hash [[97, 0]] = hash [[97], []] ∧ ([[97, 0]] : List (List Nat)) ≠ [[97], []] :=
  ⟨rfl, by decide⟩

/-- C3 (amended): restricted to sequences of NUL-free byte strings, the
identity hash is deterministic and fully input-sensitive: with the digest
modelled as an injective function (with byte-valued output), two sequences
hash equal exactly when they are equal — in particular no content change,
no boundary shift (`"ab","c"` vs `"a","bc"`) and no reordering collides. -/
theorem hashWith_inj_of_nul_free (digest : List Nat → List Nat)
    (hinj : Function.Injective digest)
    (hbx : ∀ b ∈ digest (hashInput xs), b < 256)
    (hby : ∀ b ∈ digest (hashInput ys), b < 256)
    (hx : ∀ s ∈ xs, 0 ∉ s) (hy : ∀ s ∈ ys, 0 ∉ s) :
    hashWith digest xs = hashWith digest ys ↔ xs = ys := by
  constructor
  · intro h
    exact hashInput_inj xs ys hx hy (hinj (b64UrlEncode_inj hbx hby h))
  · intro h
    rw [h]

/-- C3 (witness): the amended theorem applied at the identity digest to the
boundary-shift pair from the spec, `["ab","c"]` vs `["a","bc"]`: they do not
collide, being distinct sequences. -/
theorem hashWith_inj_of_nul_free_witness :
    (hashWith id [[97, 98], [99]] = hashWith id [[97], [98, 99]] ↔
      ([[97, 98], [99]] : List (List Nat)) = [[97], [98, 99]]) ∧
    ([[97, 98], [99]] : List (List Nat)) ≠ [[97], [98, 99]] :=
  ⟨hashWith_inj_of_nul_free id (fun _ _ h => h) (by decide) (by decide)
      (by decide) (by decide),
   by decide⟩

/-! ## Claim C4: the hash output alphabet and padding -/

/-- C4 (counterexample): the claim "the returned string contains no `=`
padding character" is false: `hash` uses Go's `base64.URLEncoding`, which
pads, and a 32-byte SHA-256 digest always encodes with one trailing `=`.
Concretely, the encoding of `hash(["a"])` ends with `=`. -/
theorem hash_contains_pad : (hash [[97]]).getLast? = some '=' := by decide

/-- C4 (amended): every identity-hash output (and hence every
`Alert.UniqueID`) is 44 characters of URL-safe base64 *with padding*: it
ends in exactly one `=`, and every character before it lies in the URL-safe
alphabet (no `+`, `/` or other characters). -/
theorem hash_output_urlsafe_padded :
    (∀ input : List (List Nat),
      (hash input).length = 44 ∧
      (hash input).getLast? = some '=' ∧
      ∀ c ∈ (hash input).dropLast, c ∈ b64Alphabet ∧ c ≠ '=') ∧
    ∀ (fmtTs : Int → List Nat) (a : Alert), (uniqueID fmtTs a).getLast? = some '=' := by
  have main : ∀ input : List (List Nat),
      (hash input).length = 44 ∧
      (hash input).getLast? = some '=' ∧
      ∀ c ∈ (hash input).dropLast, c ∈ b64Alphabet ∧ c ≠ '=' := by
    intro input
    have hlen : (sha256 (hashInput input)).length % 3 = 2 := by
      rw [sha256_length]
    obtain ⟨hl, hg, hd⟩ := b64UrlEncode_rem2 _ hlen
    rw [sha256_length] at hl
    refine ⟨by rw [hash, hashWith]; rw [hl], by rw [hash, hashWith]; rw [hg], ?_⟩
    intro c hc
    have hmem : c ∈ b64Alphabet := hd c (by rwa [hash, hashWith] at hc)
    exact ⟨hmem, fun he => pad_not_mem_b64Alphabet (he ▸ hmem)⟩
  exact ⟨main, fun fmtTs a => (main _).2.1⟩

/-! ## Claim C6: Clean totality and the nil receiver -/

/-- C6 (counterexample): as stated ("for every input, including an absent
(nil) Alert, Clean completes normally") the claim is false: `Clean` has a
pointer receiver and its very first statement reads `a.Timestamp`, so a nil
receiver panics with a nil-pointer dereference; only `Validate` guards
against nil.  In the model, a panicking call is the outer `none` — the
call on the nil receiver does not complete. -/
theorem cleanCall_nil_panics : cleanCall 0 none = none := rfl

/-- C6 (amended): `Clean` never fails on any *non-nil* Alert: for every
input state it completes normally (every primitive of the pass is total) and
leaves the receiver in the cleaned state; a nil Alert, however, panics. -/
theorem cleanCall_total_of_not_nil (now : Int) (r : Option Alert) (h : r ≠ none) :
    ∃ a, r = some a ∧ cleanCall now r = some (some (clean now a)) := by
  cases r with
  | none => exact absurd rfl h
  | some a => exact ⟨a, rfl, rfl⟩

/-- C6 (witness): the amended theorem applied to the zero-valued Alert. -/
theorem cleanCall_total_of_not_nil_witness :
    ∃ a, some zeroAlert = some a ∧ cleanCall 7 (some zeroAlert) = some (some (clean 7 a)) :=
  cleanCall_total_of_not_nil 7 (some zeroAlert) (by decide)

set_option maxRecDepth 40000 in
/-- C10 (confirmed): validation length bounds use Go `len` (UTF-8 bytes),
not codepoints.  A correlation ID of 251 copies of `é` (2 bytes each, 502
bytes total) has a legal codepoint count but is rejected, and a plain-text
input initial value of `maxLength` copies of `é` is rejected likewise;
in both cases the whole `Validate` battery rejects the alert, for any
behaviour of the URL checks. -/
theorem validate_length_bounds_in_bytes :
    (runeCount (List.replicate 251 (Char.ofNat 0xE9)) ≤ maxCorrelationIDLength ∧
      ∀ u : UrlChecks,
        validate u { zeroAlert with
          header := "a".data, severity := "error".data,
          correlationID := List.replicate 251 (Char.ofNat 0xE9) } =
          some .correlationIDTooLong) ∧
    ((runeCount multibyteInput.initialValue : Int) ≤ multibyteInput.maxLength ∧
      ∀ u : UrlChecks,
        validate u { zeroAlert with
          header := "a".data, severity := "error".data,
          webhooks := [some multibyteWebhook] } =
          some (.plainTextInputInitialTooLong 0 0)) := by
  refine ⟨⟨by decide, fun u => ?_⟩, ⟨by decide, fun u => ?_⟩⟩ <;> rfl

theorem mentionScan_none {ms : List GoStr} (h : ∀ m ∈ ms, slackMentionMatch m = true) :
    ∀ i j, escalationScan.mentionScan i j ms = none := by
  induction ms with
  | nil => intro i j; rfl
  | cons m rest ih =>
    intro i j
    rw [escalationScan.mentionScan, if_neg (by simp [h m (by simp)])]
    exact ih (fun x hx => h x (by simp [hx])) i (j + 1)

/-- One scan step over an entry whose non-delay checks all pass. -/
theorem escalationScan_cons_ok {e : Escalation} (hok : EscOtherOk e) (i : Nat)
    (prev : Int) (rest : List (Option Escalation)) :
    escalationScan i prev (some e :: rest) =
      if e.delaySeconds < minEscalationDelaySeconds then some (.escalationDelayTooLow i)
      else if 0 < prev ∧ e.delaySeconds - prev < minEscalationDelayDiffSeconds then
        some (.escalationDelayDiffTooSmall i)
      else escalationScan (i + 1) e.delaySeconds rest := by
  obtain ⟨h1, h2, h3, h4⟩ := hok
  rw [escalationScan]
  by_cases hd : e.delaySeconds < minEscalationDelaySeconds
  · rw [if_pos hd, if_pos hd]
  rw [if_neg hd, if_neg hd]
  by_cases hp : 0 < prev ∧ e.delaySeconds - prev < minEscalationDelayDiffSeconds
  · rw [if_pos hp, if_pos hp]
  rw [if_neg hp, if_neg hp, if_neg (by push_neg; intro hne1 hne2; rcases h1 with h | h | h
      <;> simp [h] at hne1 hne2 ⊢),
    if_neg (by omega), mentionScan_none h3 i 0, if_neg (by
      push_neg
      intro hne
      exact h4 hne)]

theorem escalationScan_nil (i : Nat) (prev : Int) : escalationScan i prev [] = none := rfl

set_option maxHeartbeats 3200000 in
/-- C7 (confirmed): for a non-nil escalation list of otherwise-valid
entries within the count bound, `ValidateEscalation` reports
"too small compared to previous" at entry `i` exactly when a previous
delay `> 0` was already seen (i.e. `0 < i`; every earlier delay passed the
30-second floor, hence is positive) and the delay minus the previous delay
is below the 30-second minimum spacing, with all earlier entries passing
both checks; it reports "too low" at `i` exactly when entry `i` is below
the 30-second floor with all earlier entries passing; and it accepts
exactly when every delay meets the floor and consecutive delays are spaced
at least 30 apart.  In particular delays `[30, 59]` fail with the spacing
reason and `[30, 60]` pass (see the witness). -/
theorem validateEscalation_floor_and_spacing (es : List Escalation)
    (hok : ∀ e ∈ es, EscOtherOk e) (hlen : es.length ≤ maxEscalationCount) (i : Nat) :
    (validateEscalation { zeroAlert with escalation := es.map some } =
        some (.escalationDelayDiffTooSmall i) ↔
      DiffRejectAt (es.map Escalation.delaySeconds) i) ∧
    (validateEscalation { zeroAlert with escalation := es.map some } =
        some (.escalationDelayTooLow i) ↔
      FloorRejectAt (es.map Escalation.delaySeconds) i) ∧
    (validateEscalation { zeroAlert with escalation := es.map some } = none ↔
      (∀ d ∈ es.map Escalation.delaySeconds, minEscalationDelaySeconds ≤ d) ∧
      spacedOk (es.map Escalation.delaySeconds) = true) := by
  match es, hok, hlen with
  | [], _, _ =>
    have hval : validateEscalation { zeroAlert with escalation := ([] : List Escalation).map some } = none := by
      rw [validateEscalation]
      rfl
    rw [hval]
    refine ⟨?_, ?_, ?_⟩ <;> simp [DiffRejectAt, FloorRejectAt, spacedOk]
  | [e1], hok, _ =>
    have h1 := hok e1 (by simp)
    have hval : validateEscalation { zeroAlert with escalation := [e1].map some } =
        (if e1.delaySeconds < minEscalationDelaySeconds then
          some (.escalationDelayTooLow 0) else none) := by
      rw [validateEscalation, if_neg (by simp [maxEscalationCount]),
        show ([e1].map some) = (some e1 :: []) from rfl, escalationScan_cons_ok h1]
      simp only [Int.lt_irrefl, false_and, if_false]
      rw [escalationScan_nil]
    rw [hval]
    clear hval h1
    rcases i with _ | i <;>
      refine ⟨?_, ?_, ?_⟩ <;>
      · split_ifs with h <;>
          simp_all [DiffRejectAt, FloorRejectAt, spacedOk, List.getD,
            minEscalationDelaySeconds, minEscalationDelayDiffSeconds] <;> omega
  | [e1, e2], hok, _ =>
    have h1 := hok e1 (by simp)
    have h2 := hok e2 (by simp)
    have hval : validateEscalation { zeroAlert with escalation := [e1, e2].map some } =
        (if e1.delaySeconds < minEscalationDelaySeconds then
          some (.escalationDelayTooLow 0)
        else if e2.delaySeconds < minEscalationDelaySeconds then
          some (.escalationDelayTooLow 1)
        else if 0 < e1.delaySeconds ∧
            e2.delaySeconds - e1.delaySeconds < minEscalationDelayDiffSeconds then
          some (.escalationDelayDiffTooSmall 1)
        else none) := by
      rw [validateEscalation, if_neg (by simp [maxEscalationCount]),
        show ([e1, e2].map some) = (some e1 :: some e2 :: []) from rfl,
        escalationScan_cons_ok h1]
      simp only [Int.lt_irrefl, false_and, if_false]
      rw [escalationScan_cons_ok h2, escalationScan_nil]
    rw [hval]
    clear hval h1 h2
    rcases i with _ | _ | i <;>
      refine ⟨?_, ?_, ?_⟩ <;>
      · split_ifs with h <;>
          simp_all [DiffRejectAt, FloorRejectAt, spacedOk, List.getD,
            minEscalationDelaySeconds, minEscalationDelayDiffSeconds] <;> omega
  | [e1, e2, e3], hok, _ =>
    have h1 := hok e1 (by simp)
    have h2 := hok e2 (by simp)
    have h3 := hok e3 (by simp)
    have hval : validateEscalation { zeroAlert with escalation := [e1, e2, e3].map some } =
        (if e1.delaySeconds < minEscalationDelaySeconds then
          some (.escalationDelayTooLow 0)
        else if e2.delaySeconds < minEscalationDelaySeconds then
          some (.escalationDelayTooLow 1)
        else if 0 < e1.delaySeconds ∧
            e2.delaySeconds - e1.delaySeconds < minEscalationDelayDiffSeconds then
          some (.escalationDelayDiffTooSmall 1)
        else if e3.delaySeconds < minEscalationDelaySeconds then
          some (.escalationDelayTooLow 2)
        else if 0 < e2.delaySeconds ∧
            e3.delaySeconds - e2.delaySeconds < minEscalationDelayDiffSeconds then
          some (.escalationDelayDiffTooSmall 2)
        else none) := by
      rw [validateEscalation, if_neg (by simp [maxEscalationCount]),
        show ([e1, e2, e3].map some) = (some e1 :: some e2 :: some e3 :: []) from rfl,
        escalationScan_cons_ok h1]
      simp only [Int.lt_irrefl, false_and, if_false]
      rw [escalationScan_cons_ok h2]
      congr 1
      rw [escalationScan_cons_ok h3, escalationScan_nil]
    rw [hval]
    clear hval h1 h2 h3
    rcases i with _ | _ | _ | i <;>
      refine ⟨?_, ?_, ?_⟩ <;>
      · split_ifs with h <;>
          simp_all [DiffRejectAt, FloorRejectAt, spacedOk, List.getD,
            minEscalationDelaySeconds, minEscalationDelayDiffSeconds] <;> omega

/-- C7 (witness): two otherwise-valid escalations with delays `[30, 59]`
fail with the spacing reason at index 1 (diff 29 < 30), while `[30, 60]`
pass validation outright. -/
theorem validateEscalation_floor_and_spacing_witness :
    validateEscalation { zeroAlert with escalation :=
      [Escalation.mk "error".data 30 [] [], Escalation.mk "error".data 59 [] []].map some } =
        some (.escalationDelayDiffTooSmall 1) ∧
    validateEscalation { zeroAlert with escalation :=
      [Escalation.mk "error".data 30 [] [], Escalation.mk "error".data 60 [] []].map some } =
        none :=
  ⟨(validateEscalation_floor_and_spacing
      [Escalation.mk "error".data 30 [] [], Escalation.mk "error".data 59 [] []]
      (by decide) (by decide) 1).1.mpr (by decide),
   (validateEscalation_floor_and_spacing
      [Escalation.mk "error".data 30 [] [], Escalation.mk "error".data 60 [] []]
      (by decide) (by decide) 0).2.2.mpr (by decide)⟩

/-- C8 (confirmed): plain-text and checkbox inputs of one webhook share a
single id-uniqueness namespace: a plain-text input and a checkbox input
with the same id fail as a duplicate (reported on the checkbox input, which
is scanned second), two same-kind inputs with the same id fail likewise,
and the same input id appearing in two *different* webhooks of the same
alert causes no error. -/
theorem webhook_input_ids_share_namespace (x : GoStr) (hx : x ≠ [])
    (hlen : goLen x ≤ maxWebhookInputIDLength) (u : UrlChecks) :
    validateWebhooks u { zeroAlert with
        webhooks := [some (hookOf "w".data [some (ptiOf x)] [some (cbiOf x)])] } =
      some (.checkboxInputIDNotUnique 0 0) ∧
    validateWebhooks u { zeroAlert with
        webhooks := [some (hookOf "w".data [some (ptiOf x), some (ptiOf x)] [])] } =
      some (.plainTextInputIDNotUnique 0 1) ∧
    validateWebhooks u { zeroAlert with
        webhooks := [some (hookOf "v".data [some (ptiOf x)] []),
                     some (hookOf "w".data [some (ptiOf x)] [])] } = none := by
  have hlenu : ¬ (200 < goLen x) := by
    simp only [maxWebhookInputIDLength] at hlen
    omega
  have gw : goLen ['w'] = 1 := by decide
  have gh : goLen ['h'] = 1 := by decide
  have gb : goLen ['b'] = 1 := by decide
  have gv : goLen ['v'] = 1 := by decide
  have gnil : goLen ([] : GoStr) = 0 := by decide
  have hpre : hasPrefixStr (toLowerStr ['h']) ['h', 't', 't', 'p'] = false := by decide
  have hascii : isValidASCII ['h'] = true := by decide
  have hmem2 : (['w'] : GoStr) ∉ [(['v'] : GoStr)] := by decide
  refine ⟨?_, ?_, ?_⟩ <;>
    simp [validateWebhooks, webhookScan, webhookBodyCheck,
      webhookBodyCheck.webhookBodyCheck2, plainTextInputScan, checkboxInputScan,
      hookOf, ptiOf, cbiOf, hx, hlenu, gw, gh, gb, gv, gnil, hpre, hascii, hmem2,
      maxWebhookCount, maxWebhookIDLength, maxWebhookURLLength,
      maxWebhookButtonTextLength, maxWebhookConfirmationTextLength,
      maxWebhookPayloadCount, maxWebhookPlainTextInputCount,
      maxWebhookCheckboxInputCount, maxWebhookInputIDLength,
      maxWebhookInputDescriptionLength, maxWebhookInputTextLength,
      maxWebhookInputLabelLength, maxWebhookCheckboxOptionCount]

/-- C8 (witness): the theorem at the concrete id "x". -/
theorem webhook_input_ids_share_namespace_witness :
    validateWebhooks ⟨fun _ => true, fun _ => true⟩ { zeroAlert with
        webhooks := [some (hookOf "w".data [some (ptiOf "x".data)] [some (cbiOf "x".data)])] } =
      some (.checkboxInputIDNotUnique 0 0) ∧
    validateWebhooks ⟨fun _ => true, fun _ => true⟩ { zeroAlert with
        webhooks := [some (hookOf "w".data [some (ptiOf "x".data), some (ptiOf "x".data)] [])] } =
      some (.plainTextInputIDNotUnique 0 1) ∧
    validateWebhooks ⟨fun _ => true, fun _ => true⟩ { zeroAlert with
        webhooks := [some (hookOf "v".data [some (ptiOf "x".data)] []),
                     some (hookOf "w".data [some (ptiOf "x".data)] [])] } = none :=
  webhook_input_ids_share_namespace "x".data (by decide) (by decide) _

/-- C9 (confirmed): `Validate` is read-only: threading the alert through
the whole battery returns the alert (with all nested fields, lists and
maps) exactly as it was, whatever the outcome, and the outcome agrees with
the pure validator. -/
theorem validate_read_only (u : UrlChecks) (a : Alert) :
    validateSt u a = (validate u a, a) := by
  rw [validateSt, validate]
  cases validateSlackChannelIDAndRouteKey a <;> simp only [validateStep] <;> try rfl
  cases validateHeaderAndText a <;> simp only [validateStep] <;> try rfl
  cases validateIcon a <;> simp only [validateStep] <;> try rfl
  cases validateLink u a <;> simp only [validateStep] <;> try rfl
  cases validateSeverity a <;> simp only [validateStep] <;> try rfl
  cases validateCorrelationID a <;> simp only [validateStep] <;> try rfl
  cases validateAutoResolve a <;> simp only [validateStep] <;> try rfl
  cases validateFields a <;> simp only [validateStep] <;> try rfl
  cases validateWebhooks u a <;> simp only [validateStep] <;> try rfl
  cases validateEscalation a <;> simp only [validateStep] <;> try rfl

/-! ## Claims C1 and C5: truncation bounds of the cleaning pass -/

theorem option_all_forall {o : Option Char} {p : Char → Bool} (h : o.all p = true) :
    ∀ c, o = some c → p c = true := by
  intro c hc
  rw [hc] at h
  simpa [Option.all] using h

theorem ellipsis_eq : ellipsis = ['.', '.', '.'] := rfl

theorem mem_of_mem_trim_take {c : Char} {s : GoStr} {n : Nat}
    (h : c ∈ trimSpace (s.take n)) : c ∈ s :=
  ((trimSpace_infix_self _).sublist.trans (List.take_sublist n s)).mem h

theorem truncateWithEllipsis_spec (bound : Nat) (s : GoStr) (hb : 3 ≤ bound)
    (hhead : ∀ c, s.head? = some c → isGoSpace c = false) :
    TruncSpec s bound (truncateWithEllipsis bound s) := by
  intro hlt
  rw [truncateWithEllipsis, if_pos hlt]
  have htr : truncateString s (bound - 3) = s.take (bound - 3) := by
    rw [truncateString, if_neg]
    omega
  rw [htr]
  have hlen_take : (s.take (bound - 3)).length = bound - 3 := by
    rw [List.length_take]
    unfold runeCount at hlt
    omega
  have hell : ellipsis.length = 3 := rfl
  refine ⟨?_, List.suffix_append _ _, ?_, ?_⟩
  · rw [runeCount, List.length_append, hell]
    have h1 := trimSpace_length_le (s.take (bound - 3))
    omega
  · intro c hc
    rcases List.mem_append.mp hc with hc | hc
    · exact Or.inl (mem_of_mem_trim_take hc)
    · right
      rw [ellipsis_eq] at hc
      simpa using hc
  · intro hall
    have hts : trimSpace (s.take (bound - 3)) = s.take (bound - 3) := by
      apply trimSpace_eq_self
      · intro c hc
        rw [List.head?_take] at hc
        split at hc
        · exact absurd hc (by simp)
        · exact hhead c hc
      · intro c hc
        have := option_all_forall hall c hc
        simpa using this
    rw [hts, runeCount, List.length_append, hlen_take, hell]
    omega

/-- Heads of whitespace-normalised strings are not spaces. -/
theorem head_replaceNl_trim_not_space (x : GoStr) :
    ∀ c, (replaceNl (trimSpace x)).head? = some c → isGoSpace c = false := by
  intro c hc
  rw [replaceNl, List.head?_map] at hc
  rcases Option.map_eq_some'.mp hc with ⟨d, hd, hdc⟩
  rw [← hdc, isGoSpace_nlToSpace]
  exact trimSpace_head _ hd

/-- C1 (amended): for every truncation-bounded field, measured on the
whitespace-normalised value Clean computes, truncation yields at most `N`
codepoints ending in `"..."` with no character invented (no codepoint is
ever split); the length is exactly `N` whenever the kept prefix does not
end in trimmed whitespace, and the fallback summary — which Clean does not
re-trim — is always exactly `N`. -/
theorem clean_truncates_within_bounds (now : Int) (a : Alert) :
    TruncSpec (replaceNl (trimSpace a.header)) maxHeaderLength ((clean now a).header) ∧
    TruncSpec (replaceNl (trimSpace a.headerWhenResolved)) maxHeaderLength
      ((clean now a).headerWhenResolved) ∧
    TruncSpec (trimSpace a.author) maxAuthorLength ((clean now a).author) ∧
    TruncSpec (trimSpace a.host) maxHostLength ((clean now a).host) ∧
    TruncSpec (trimSpace a.username) maxUsernameLength ((clean now a).username) ∧
    TruncSpec (trimSpace a.footer) maxFooterLength ((clean now a).footer) ∧
    ((clean now a).fields = a.fields.map cleanFieldOpt ∧
      ∀ fl : AlertField, some fl ∈ a.fields →
        TruncSpec (trimSpace fl.title) maxFieldTitleLength
          (truncateWithEllipsis maxFieldTitleLength (trimSpace fl.title)) ∧
        TruncSpec (trimSpace fl.value) maxFieldValueLength
          (truncateWithEllipsis maxFieldValueLength (trimSpace fl.value))) ∧
    (runeCount ((clean now a).fallbackText) ≤ maxFallbackTextLength ∧
      (maxFallbackTextLength <
          runeCount (replaceNl (trimSpace (replaceAll statusToken [] a.fallbackText))) →
        runeCount ((clean now a).fallbackText) = maxFallbackTextLength ∧
          ellipsis <:+ (clean now a).fallbackText)) := by
  refine ⟨truncateWithEllipsis_spec _ _ (by decide) (head_replaceNl_trim_not_space _),
    truncateWithEllipsis_spec _ _ (by decide) (head_replaceNl_trim_not_space _),
    truncateWithEllipsis_spec _ _ (by decide) (fun c h => trimSpace_head _ h),
    truncateWithEllipsis_spec _ _ (by decide) (fun c h => trimSpace_head _ h),
    truncateWithEllipsis_spec _ _ (by decide) (fun c h => trimSpace_head _ h),
    truncateWithEllipsis_spec _ _ (by decide) (fun c h => trimSpace_head _ h),
    ⟨rfl, ?_⟩, ?_, ?_⟩
  · intro fl _
    exact ⟨truncateWithEllipsis_spec _ _ (by decide) (fun c h => trimSpace_head _ h),
      truncateWithEllipsis_spec _ _ (by decide) (fun c h => trimSpace_head _ h)⟩
  · show runeCount (cleanFallbackText a.fallbackText) ≤ maxFallbackTextLength
    rw [cleanFallbackText]
    set t := replaceNl (trimSpace (replaceAll statusToken [] a.fallbackText)) with ht
    by_cases h : maxFallbackTextLength < runeCount t
    · rw [if_pos h, truncateString, if_neg (by omega)]
      rw [runeCount, List.length_append, List.length_take]
      have hell : ellipsis.length = 3 := rfl
      have hge : 3 ≤ maxFallbackTextLength := by decide
      unfold runeCount at h
      omega
    · rw [if_neg h]
      omega
  · intro hlt
    have heq : (clean now a).fallbackText = cleanFallbackText a.fallbackText := rfl
    rw [heq, cleanFallbackText]
    set t := replaceNl (trimSpace (replaceAll statusToken [] a.fallbackText)) with ht
    rw [if_pos hlt, truncateString, if_neg (by omega)]
    have hell : ellipsis.length = 3 := rfl
    constructor
    · rw [runeCount, List.length_append, List.length_take, hell]
      have hge : 3 ≤ maxFallbackTextLength := by decide
      unfold runeCount at hlt
      omega
    · exact List.suffix_append _ _

set_option maxRecDepth 40000 in
/-- C1 (counterexample): the claim's "exactly N codepoints" fails when the
kept prefix ends in whitespace, which Clean trims before appending the
ellipsis: a 131-codepoint header whose 127th codepoint is a space cleans to
129 codepoints, not 130. -/
theorem clean_header_truncation_not_exact :
    maxHeaderLength <
      runeCount (List.replicate 126 'a' ++ [' '] ++ List.replicate 4 'b') ∧
    runeCount ((clean 0 { zeroAlert with
      header := List.replicate 126 'a' ++ [' '] ++ List.replicate 4 'b' }).header) = 129 := by
  constructor <;> decide

set_option maxRecDepth 40000 in
/-- C1 (witness): the amended theorem at a 131-`a` header (no whitespace
at the cut: exactly 130 codepoints with the `...` suffix) and a 151-`a`
fallback text (exactly 150). -/
theorem clean_truncates_within_bounds_witness :
    (runeCount ((clean 0 { zeroAlert with header := List.replicate 131 'a' }).header) =
        maxHeaderLength ∧
      ellipsis <:+ (clean 0 { zeroAlert with header := List.replicate 131 'a' }).header) ∧
    runeCount ((clean 0 { zeroAlert with
        fallbackText := List.replicate 151 'a' }).fallbackText) = maxFallbackTextLength := by
  constructor
  · obtain ⟨-, hsuf, -, hex⟩ :=
      (clean_truncates_within_bounds 0
        { zeroAlert with header := List.replicate 131 'a' }).1 (by decide)
    exact ⟨hex (by decide), hsuf⟩
  · obtain ⟨-, h⟩ := (clean_truncates_within_bounds 0
      { zeroAlert with fallbackText := List.replicate 151 'a' }).2.2.2.2.2.2.2
    exact (h (by decide)).1

theorem shorten_fence_spec (t : GoStr)
    (hhead : ∀ c, t.head? = some c → isGoSpace c = false) :
    FenceSpec t (shortenAlertTextIfNeeded t) := by
  intro hlt hfence
  rw [shortenAlertTextIfNeeded, if_neg (by omega), if_pos hfence]
  have htr : truncateString t (maxTextLength - 6) = t.take (maxTextLength - 6) := by
    rw [truncateString, if_neg]
    have h6 : 6 ≤ maxTextLength := by decide
    omega
  rw [htr]
  have hlen_take : (t.take (maxTextLength - 6)).length = maxTextLength - 6 := by
    rw [List.length_take]
    unfold runeCount at hlt
    omega
  have hell : (ellipsis ++ codeFence).length = 6 := rfl
  have h6 : 6 ≤ maxTextLength := by decide
  refine ⟨List.suffix_append _ _, ?_, ?_⟩
  · rw [runeCount, List.length_append, hell]
    have h1 := trimSpace_length_le (t.take (maxTextLength - 6))
    omega
  · intro hall
    have hts : trimSpace (t.take (maxTextLength - 6)) = t.take (maxTextLength - 6) := by
      apply trimSpace_eq_self
      · intro c hc
        rw [List.head?_take] at hc
        split at hc
        · exact absurd hc (by simp)
        · exact hhead c hc
      · intro c hc
        have := option_all_forall hall c hc
        simpa using this
    rw [hts, runeCount, List.length_append, hlen_take, hell]
    omega

/-- C5 (amended): a body text (`Text` or `TextWhenResolved`) whose trimmed
value exceeds 10000 codepoints and ends with the code-fence close token
cleans to a text ending in `"...```"` with at most — and, whenever the kept
9994-codepoint prefix does not end in trimmed whitespace, exactly — 10000
codepoints. -/
theorem clean_fence_truncation (now : Int) (a : Alert) :
    FenceSpec (trimSpace a.text) ((clean now a).text) ∧
    FenceSpec (trimSpace a.textWhenResolved) ((clean now a).textWhenResolved) :=
  ⟨shorten_fence_spec _ (fun _ h => trimSpace_head _ h),
   shorten_fence_spec _ (fun _ h => trimSpace_head _ h)⟩

theorem dropWhile_replicate_a {n : Nat} :
    List.dropWhile isGoSpace (List.replicate n 'a') = List.replicate n 'a' := by
  apply dropWhile_eq_self_of_head
  intro c hc
  rw [List.head?_replicate] at hc
  split at hc
  · exact absurd hc (by simp)
  · cases hc
    decide

theorem head_replicate_append {n : Nat} (hn : 0 < n) (a : Char) (l : GoStr) :
    (List.replicate n a ++ l).head? = some a := by
  cases n with
  | zero => omega
  | succ m => simp [List.replicate_succ]

theorem trimSpace_fenceCexText : trimSpace fenceCexText = fenceCexText := by
  apply trimSpace_eq_self
  · intro c hc
    rw [fenceCexText, List.append_assoc, List.append_assoc,
      head_replicate_append (by omega)] at hc
    cases hc
    decide
  · intro c hc
    rw [fenceCexText, List.getLast?_append,
      show codeFence.getLast? = some '`' from rfl] at hc
    cases hc
    decide

theorem trimSpace_replicate_space {n : Nat} (hn : 0 < n) :
    trimSpace (List.replicate n 'a' ++ [' ']) = List.replicate n 'a' := by
  rw [trimSpace_eq]
  rw [dropWhile_eq_self_of_head (p := isGoSpace) (s := List.replicate n 'a' ++ [' ']) (by
    intro c hc
    rw [head_replicate_append hn] at hc
    cases hc
    decide)]
  rw [List.reverse_append, List.reverse_replicate,
    show ([' '] : GoStr).reverse = [' '] from rfl, List.singleton_append,
    List.dropWhile_cons, if_pos (by decide), dropWhile_replicate_a, List.reverse_replicate]

theorem runeCount_fenceCexText : runeCount fenceCexText = 10001 := by
  rw [runeCount, fenceCexText]
  simp only [List.length_append, List.length_replicate, List.length_cons, List.length_nil,
    show codeFence.length = 3 from rfl]

/-- The text field of `clean`, as an equation usable on large literals. -/
theorem clean_text_proj (now : Int) (a : Alert) :
    (clean now a).text = shortenAlertTextIfNeeded (trimSpace a.text) := rfl

/-- `clean` on the counterexample text, computed symbolically (the kernel
cannot evaluate 10001-element lists directly). -/
theorem clean_fenceCexText_eq :
    (clean 0 { zeroAlert with text := fenceCexText }).text =
      List.replicate 9993 'a' ++ (ellipsis ++ codeFence) := by
  rw [clean_text_proj,
    show ({ zeroAlert with text := fenceCexText } : Alert).text = fenceCexText from rfl]
  rw [trimSpace_fenceCexText, shortenAlertTextIfNeeded,
    if_neg (by rw [runeCount_fenceCexText]; decide),
    if_pos (by
      rw [fenceCexText]
      exact List.isSuffixOf_iff_suffix.mpr (List.suffix_append _ _)),
    truncateString, if_neg (by rw [runeCount_fenceCexText]; decide)]
  have hsplit : fenceCexText =
      (List.replicate 9993 'a' ++ [' ']) ++ (List.replicate 4 'b' ++ codeFence) := by
    rw [fenceCexText, List.append_assoc]
  rw [show maxTextLength - 6 = 9994 from rfl, hsplit,
    List.take_left' (by
      simp only [List.length_append, List.length_replicate, List.length_cons,
        List.length_nil]),
    trimSpace_replicate_space (by omega)]

/-- C5 (counterexample): the claim's "exactly 10000 codepoints" is false
when the kept prefix ends in whitespace, which Clean trims before appending
`"...```"`: this 10001-codepoint fence-terminated body cleans to 9999
codepoints. -/
theorem clean_fence_truncation_not_exact :
    maxTextLength < runeCount fenceCexText ∧
    hasSuffixStr fenceCexText codeFence = true ∧
    runeCount ((clean 0 { zeroAlert with text := fenceCexText }).text) = 9999 := by
  refine ⟨by rw [runeCount_fenceCexText]; decide, ?_, ?_⟩
  · rw [fenceCexText]
    exact List.isSuffixOf_iff_suffix.mpr (List.suffix_append _ _)
  · rw [clean_fenceCexText_eq, runeCount, List.length_append, List.length_replicate]
    rfl

theorem trimSpace_fenceWitText : trimSpace fenceWitText = fenceWitText := by
  apply trimSpace_eq_self
  · intro c hc
    rw [fenceWitText, head_replicate_append (by omega)] at hc
    cases hc
    decide
  · intro c hc
    rw [fenceWitText, List.getLast?_append,
      show codeFence.getLast? = some '`' from rfl] at hc
    cases hc
    decide

theorem runeCount_fenceWitText : runeCount fenceWitText = 10001 := by
  rw [runeCount, fenceWitText]
  simp only [List.length_append, List.length_replicate,
    show codeFence.length = 3 from rfl]

/-- C5 (witness): the amended theorem at the 10001-codepoint witness text:
the cleaned body ends in `"...```"` and has exactly 10000 codepoints. -/
theorem clean_fence_truncation_witness :
    (ellipsis ++ codeFence) <:+ (clean 0 { zeroAlert with text := fenceWitText }).text ∧
    runeCount ((clean 0 { zeroAlert with text := fenceWitText }).text) = maxTextLength := by
  obtain ⟨hsuf, -, hex⟩ :=
    (clean_fence_truncation 0 { zeroAlert with text := fenceWitText }).1
      (by show maxTextLength < runeCount (trimSpace fenceWitText)
          rw [trimSpace_fenceWitText, runeCount_fenceWitText]; decide)
      (by show hasSuffixStr (trimSpace fenceWitText) codeFence = true
          rw [trimSpace_fenceWitText, fenceWitText]
          exact List.isSuffixOf_iff_suffix.mpr (List.suffix_append _ _))
  refine ⟨hsuf, hex ?_⟩
  show ((trimSpace fenceWitText).take (maxTextLength - 6)).getLast?.all _ = true
  rw [trimSpace_fenceWitText, fenceWitText, show maxTextLength - 6 = 9994 from rfl,
    List.take_append_of_le_length (by rw [List.length_replicate]; omega),
    List.take_replicate, show min 9994 9998 = 9994 from rfl, List.getLast?_replicate]
  decide

/-! ## Idempotence of the cleaning pass (claim C2)

`Clean` runs each string field through a fixed pipeline of trims,
case-mappings, newline collapses and truncations.  The lemmas below show
that each pipeline output is a fixed point of the pipeline — except the
`:status:` removal in the fallback text, which can create a fresh
occurrence of the token and is therefore only conditionally idempotent. -/

theorem toLowerStr_idem (s : GoStr) : toLowerStr (toLowerStr s) = toLowerStr s := by
  simp only [toLowerStr]
  rw [List.map_map]
  exact List.map_congr_left (fun c _ => lowerChar_idem c)

theorem toUpperStr_idem (s : GoStr) : toUpperStr (toUpperStr s) = toUpperStr s := by
  simp only [toUpperStr]
  rw [List.map_map]
  exact List.map_congr_left (fun c _ => upperChar_idem c)

/-- Mapping a spaceness-preserving substitution over a trimmed string
leaves nothing to trim. -/
theorem trimSpace_map_eq_self {f : Char → Char} (hf : ∀ c, isGoSpace (f c) = isGoSpace c)
    (s : GoStr) : trimSpace ((trimSpace s).map f) = (trimSpace s).map f := by
  apply trimSpace_eq_self
  · intro c hc
    rw [List.head?_map] at hc
    rcases Option.map_eq_some'.mp hc with ⟨d, hd, hdc⟩
    rw [← hdc, hf]
    exact trimSpace_head _ hd
  · intro c hc
    rw [List.getLast?_map] at hc
    rcases Option.map_eq_some'.mp hc with ⟨d, hd, hdc⟩
    rw [← hdc, hf]
    exact trimSpace_getLast _ hd

/-- `strings.ToLower(strings.TrimSpace(·))` is idempotent. -/
theorem lower_trim_idem (s : GoStr) :
    toLowerStr (trimSpace (toLowerStr (trimSpace s))) = toLowerStr (trimSpace s) := by
  simp only [toLowerStr]
  rw [trimSpace_map_eq_self isGoSpace_lowerChar s, List.map_map]
  exact List.map_congr_left (fun c _ => lowerChar_idem c)

/-- `strings.ToUpper(strings.TrimSpace(·))` is idempotent. -/
theorem upper_trim_idem (s : GoStr) :
    toUpperStr (trimSpace (toUpperStr (trimSpace s))) = toUpperStr (trimSpace s) := by
  simp only [toUpperStr]
  rw [trimSpace_map_eq_self isGoSpace_upperChar s, List.map_map]
  exact List.map_congr_left (fun c _ => upperChar_idem c)

theorem not_nl_mem_replaceNl (s : GoStr) : '\n' ∉ replaceNl s := by
  intro h
  simp only [replaceNl] at h
  rcases List.mem_map.mp h with ⟨d, -, hd⟩
  exact nlToSpace_no_nl d hd

theorem replaceNl_eq_self {s : GoStr} (h : '\n' ∉ s) : replaceNl s = s := by
  have hcong : s.map nlToSpace = s.map id := by
    apply List.map_congr_left
    intro c hc
    simp only [nlToSpace, id_eq]
    rw [if_neg]
    intro he
    rw [he] at hc
    exact h hc
  simpa [replaceNl] using hcong

theorem mem_truncateString {c : Char} {s : GoStr} {n : Nat}
    (h : c ∈ truncateString s n) : c ∈ s := by
  simp only [truncateString] at h
  split at h
  · exact h
  · exact List.take_subset _ _ h

theorem truncateString_of_lt {s : GoStr} {n : Nat} (h : n < runeCount s) :
    truncateString s n = s.take n := by
  simp only [truncateString]
  rw [if_neg]
  omega

/-- The truncation idiom never leaves more than `bound` codepoints. -/
theorem truncateWithEllipsis_le (bound : Nat) (hb : 3 ≤ bound) (s : GoStr) :
    runeCount (truncateWithEllipsis bound s) ≤ bound := by
  simp only [truncateWithEllipsis]
  split
  · rename_i hlt
    have h1 : (truncateString s (bound - 3)).length = bound - 3 := by
      rw [truncateString_of_lt (by simp only [runeCount] at hlt ⊢; omega), List.length_take]
      simp only [runeCount] at hlt
      omega
    have h2 := trimSpace_length_le (truncateString s (bound - 3))
    have he : ellipsis.length = 3 := rfl
    simp only [runeCount, List.length_append, he]
    omega
  · omega

theorem truncateWithEllipsis_eq_self {bound : Nat} {s : GoStr} (h : runeCount s ≤ bound) :
    truncateWithEllipsis bound s = s := by
  simp only [truncateWithEllipsis]
  rw [if_neg]
  omega

theorem getLast?_append_ellipsis (u : GoStr) : (u ++ ellipsis).getLast? = some '.' := by
  rw [List.getLast?_append]
  rfl

theorem getLast?_append_fence (u : GoStr) :
    (u ++ (ellipsis ++ codeFence)).getLast? = some '`' := by
  rw [List.getLast?_append]
  rfl

/-- The head of a trimmed-prefix-plus-ellipsis string is never a space. -/
theorem head_trim_append_not_space {u v : GoStr} {c : Char} (hv : ∀ d, v.head? = some d → isGoSpace d = false)
    (hc : (trimSpace u ++ v).head? = some c) : isGoSpace c = false := by
  cases h1 : trimSpace u with
  | nil =>
    rw [h1, List.nil_append] at hc
    exact hv c hc
  | cons d t =>
    rw [h1, List.cons_append, List.head?_cons, Option.some.injEq] at hc
    have hd : (trimSpace u).head? = some d := by rw [h1]; rfl
    rw [← hc]
    exact trimSpace_head u hd

theorem truncateWithEllipsis_head {bound : Nat} {s : GoStr}
    (hh : ∀ c, s.head? = some c → isGoSpace c = false) :
    ∀ c, (truncateWithEllipsis bound s).head? = some c → isGoSpace c = false := by
  intro c hc
  simp only [truncateWithEllipsis] at hc
  split at hc
  · exact head_trim_append_not_space (fun d hd => by
      rw [show ellipsis.head? = some '.' from rfl, Option.some.injEq] at hd
      rw [← hd]
      decide) hc
  · exact hh c hc

theorem truncateWithEllipsis_getLast {bound : Nat} {s : GoStr}
    (hl : ∀ c, s.getLast? = some c → isGoSpace c = false) :
    ∀ c, (truncateWithEllipsis bound s).getLast? = some c → isGoSpace c = false := by
  intro c hc
  simp only [truncateWithEllipsis] at hc
  split at hc
  · rw [getLast?_append_ellipsis, Option.some.injEq] at hc
    rw [← hc]
    decide
  · exact hl c hc

theorem not_nl_truncateWithEllipsis {bound : Nat} {s : GoStr} (h : '\n' ∉ s) :
    '\n' ∉ truncateWithEllipsis bound s := by
  simp only [truncateWithEllipsis]
  split
  · intro hm
    rcases List.mem_append.mp hm with hm1 | hm2
    · exact h (mem_truncateString ((trimSpace_infix_self _).sublist.mem hm1))
    · revert hm2
      decide
  · exact h

/-- The header pipeline `truncate(bound, replaceNl(trim(·)))` is
idempotent for any bound of at least 3. -/
theorem header_pipe_idem (bound : Nat) (hb : 3 ≤ bound) (s : GoStr) :
    truncateWithEllipsis bound (replaceNl (trimSpace
      (truncateWithEllipsis bound (replaceNl (trimSpace s))))) =
    truncateWithEllipsis bound (replaceNl (trimSpace s)) := by
  have hth := head_replaceNl_trim_not_space s
  have htl : ∀ c, (replaceNl (trimSpace s)).getLast? = some c → isGoSpace c = false := by
    intro c hc
    simp only [replaceNl] at hc
    rw [List.getLast?_map] at hc
    rcases Option.map_eq_some'.mp hc with ⟨d, hd, hdc⟩
    rw [← hdc, isGoSpace_nlToSpace]
    exact trimSpace_getLast _ hd
  have h1 : trimSpace (truncateWithEllipsis bound (replaceNl (trimSpace s))) =
      truncateWithEllipsis bound (replaceNl (trimSpace s)) :=
    trimSpace_eq_self (truncateWithEllipsis_head hth) (truncateWithEllipsis_getLast htl)
  have h2 : replaceNl (truncateWithEllipsis bound (replaceNl (trimSpace s))) =
      truncateWithEllipsis bound (replaceNl (trimSpace s)) :=
    replaceNl_eq_self (not_nl_truncateWithEllipsis (not_nl_mem_replaceNl _))
  rw [h1, h2]
  exact truncateWithEllipsis_eq_self (truncateWithEllipsis_le bound hb _)

/-- The plain trim-truncate pipeline `truncate(bound, trim(·))` is
idempotent for any bound of at least 3. -/
theorem trim_trunc_idem (bound : Nat) (hb : 3 ≤ bound) (s : GoStr) :
    truncateWithEllipsis bound (trimSpace (truncateWithEllipsis bound (trimSpace s))) =
    truncateWithEllipsis bound (trimSpace s) := by
  have h1 : trimSpace (truncateWithEllipsis bound (trimSpace s)) =
      truncateWithEllipsis bound (trimSpace s) :=
    trimSpace_eq_self (truncateWithEllipsis_head (fun c h => trimSpace_head s h))
      (truncateWithEllipsis_getLast (fun c h => trimSpace_getLast s h))
  rw [h1]
  exact truncateWithEllipsis_eq_self (truncateWithEllipsis_le bound hb _)

theorem shorten_eq_self {t : GoStr} (h : runeCount t ≤ maxTextLength) :
    shortenAlertTextIfNeeded t = t := by
  simp only [shortenAlertTextIfNeeded]
  rw [if_pos h]

theorem shorten_runeCount_le (t : GoStr) :
    runeCount (shortenAlertTextIfNeeded t) ≤ maxTextLength := by
  have hM : maxTextLength = 10000 := rfl
  simp only [shortenAlertTextIfNeeded]
  split
  · assumption
  · rename_i hgt
    split
    · have h1 : (truncateString t (maxTextLength - 6)).length = maxTextLength - 6 := by
        rw [truncateString_of_lt (by simp only [runeCount] at hgt ⊢; omega), List.length_take]
        simp only [runeCount] at hgt
        omega
      have h2 := trimSpace_length_le (truncateString t (maxTextLength - 6))
      have he : (ellipsis ++ codeFence).length = 6 := rfl
      simp only [runeCount, List.length_append, he]
      omega
    · have h1 : (truncateString t (maxTextLength - 3)).length = maxTextLength - 3 := by
        rw [truncateString_of_lt (by simp only [runeCount] at hgt ⊢; omega), List.length_take]
        simp only [runeCount] at hgt
        omega
      have h2 := trimSpace_length_le (truncateString t (maxTextLength - 3))
      have he : ellipsis.length = 3 := rfl
      simp only [runeCount, List.length_append, he]
      omega

theorem shorten_head {s : GoStr}
    (hh : ∀ c, s.head? = some c → isGoSpace c = false) :
    ∀ c, (shortenAlertTextIfNeeded s).head? = some c → isGoSpace c = false := by
  intro c hc
  simp only [shortenAlertTextIfNeeded] at hc
  split at hc
  · exact hh c hc
  · split at hc
    · refine head_trim_append_not_space (fun d hd => ?_) hc
      rw [show (ellipsis ++ codeFence).head? = some '.' from rfl, Option.some.injEq] at hd
      rw [← hd]
      decide
    · refine head_trim_append_not_space (fun d hd => ?_) hc
      rw [show ellipsis.head? = some '.' from rfl, Option.some.injEq] at hd
      rw [← hd]
      decide

theorem shorten_getLast {s : GoStr}
    (hl : ∀ c, s.getLast? = some c → isGoSpace c = false) :
    ∀ c, (shortenAlertTextIfNeeded s).getLast? = some c → isGoSpace c = false := by
  intro c hc
  simp only [shortenAlertTextIfNeeded] at hc
  split at hc
  · exact hl c hc
  · split at hc
    · rw [getLast?_append_fence, Option.some.injEq] at hc
      rw [← hc]
      decide
    · rw [getLast?_append_ellipsis, Option.some.injEq] at hc
      rw [← hc]
      decide

/-- The body-text pipeline `shortenAlertTextIfNeeded(trim(·))` is
idempotent. -/
theorem shorten_trim_idem (s : GoStr) :
    shortenAlertTextIfNeeded (trimSpace (shortenAlertTextIfNeeded (trimSpace s))) =
    shortenAlertTextIfNeeded (trimSpace s) := by
  have h1 : trimSpace (shortenAlertTextIfNeeded (trimSpace s)) =
      shortenAlertTextIfNeeded (trimSpace s) :=
    trimSpace_eq_self (shorten_head (fun c h => trimSpace_head s h))
      (shorten_getLast (fun c h => trimSpace_getLast s h))
  rw [h1]
  exact shorten_eq_self (shorten_runeCount_le _)

/-- Collapsing newlines to spaces cannot create a `:status:` occurrence
(the token has no space). -/
theorem not_infix_replaceNl {s : GoStr} (h : ¬ statusToken <:+: s) :
    ¬ statusToken <:+: replaceNl s := by
  simp only [replaceNl]
  refine not_infix_map (fun d hd => ?_) h
  by_cases hdn : d = '\n'
  · simp only [nlToSpace] at hd
    rw [if_pos hdn] at hd
    exact absurd hd (by decide)
  · simp only [nlToSpace]
    rw [if_neg hdn]

/-- If removing `:status:` once leaves no occurrence, the whole fallback
pipeline output is free of the token. -/
theorem cleanFallbackText_free {s : GoStr}
    (h : ¬ statusToken <:+: replaceAll statusToken [] s) :
    ¬ statusToken <:+: cleanFallbackText s := by
  have h2 : ¬ statusToken <:+: replaceNl (trimSpace (replaceAll statusToken [] s)) :=
    not_infix_replaceNl (not_infix_of_trimSpace h)
  have hM : maxFallbackTextLength = 150 := rfl
  simp only [cleanFallbackText]
  split
  · rename_i hgt
    apply not_infix_append_disjoint
    · rw [truncateString_of_lt (by simp only [runeCount] at hgt ⊢; omega)]
      exact not_infix_of_infix_take h2
    · intro c hcm
      have hcd : c = '.' := by simpa [ellipsis_eq] using hcm
      rw [hcd]
      decide
  · exact h2

theorem getLast_replaceNl_trim_not_space (x : GoStr) :
    ∀ c, (replaceNl (trimSpace x)).getLast? = some c → isGoSpace c = false := by
  intro c hc
  simp only [replaceNl] at hc
  rw [List.getLast?_map] at hc
  rcases Option.map_eq_some'.mp hc with ⟨d, hd, hdc⟩
  rw [← hdc, isGoSpace_nlToSpace]
  exact trimSpace_getLast _ hd

theorem cleanFallbackText_head (s : GoStr) :
    ∀ c, (cleanFallbackText s).head? = some c → isGoSpace c = false := by
  intro c hc
  have hM : maxFallbackTextLength = 150 := rfl
  simp only [cleanFallbackText] at hc
  split at hc
  · rename_i hgt
    rw [truncateString_of_lt (by simp only [runeCount] at hgt ⊢; omega)] at hc
    rw [List.head?_append, List.head?_take, if_neg (by omega)] at hc
    cases hh : (replaceNl (trimSpace (replaceAll statusToken [] s))).head? with
    | none =>
      rw [hh, Option.none_or] at hc
      rw [show ellipsis.head? = some '.' from rfl, Option.some.injEq] at hc
      rw [← hc]
      decide
    | some d =>
      rw [hh] at hc
      have hdc : some d = some c := hc
      rw [Option.some.injEq] at hdc
      rw [← hdc]
      exact head_replaceNl_trim_not_space _ d hh
  · exact head_replaceNl_trim_not_space _ c hc

theorem cleanFallbackText_getLast (s : GoStr) :
    ∀ c, (cleanFallbackText s).getLast? = some c → isGoSpace c = false := by
  intro c hc
  simp only [cleanFallbackText] at hc
  split at hc
  · rw [getLast?_append_ellipsis, Option.some.injEq] at hc
    rw [← hc]
    decide
  · exact getLast_replaceNl_trim_not_space _ c hc

theorem not_nl_cleanFallbackText (s : GoStr) : '\n' ∉ cleanFallbackText s := by
  simp only [cleanFallbackText]
  split
  · intro hm
    rcases List.mem_append.mp hm with hm1 | hm2
    · exact not_nl_mem_replaceNl _ (mem_truncateString hm1)
    · revert hm2
      decide
  · exact not_nl_mem_replaceNl _

theorem cleanFallbackText_len_le (s : GoStr) :
    runeCount (cleanFallbackText s) ≤ maxFallbackTextLength := by
  have hM : maxFallbackTextLength = 150 := rfl
  simp only [cleanFallbackText]
  split
  · rename_i hgt
    rw [truncateString_of_lt (by simp only [runeCount] at hgt ⊢; omega)]
    have he : ellipsis.length = 3 := rfl
    simp only [runeCount, List.length_append, List.length_take, he]
    simp only [runeCount] at hgt
    omega
  · omega

/-- The fallback pipeline is idempotent whenever the first `:status:`
removal does not splice together a fresh occurrence of the token. -/
theorem cleanFallbackText_idem {s : GoStr}
    (h : ¬ statusToken <:+: replaceAll statusToken [] s) :
    cleanFallbackText (cleanFallbackText s) = cleanFallbackText s := by
  have hrepl : replaceAll statusToken [] (cleanFallbackText s) = cleanFallbackText s :=
    replaceAll_of_not_infix (cleanFallbackText_free h)
  have htrim : trimSpace (cleanFallbackText s) = cleanFallbackText s :=
    trimSpace_eq_self (cleanFallbackText_head s) (cleanFallbackText_getLast s)
  have hnl : replaceNl (cleanFallbackText s) = cleanFallbackText s :=
    replaceNl_eq_self (not_nl_cleanFallbackText s)
  have hlen := cleanFallbackText_len_le s
  set y := cleanFallbackText s with hy
  simp only [cleanFallbackText]
  rw [hrepl, htrim, hnl, if_neg (by omega)]

/-- The severity defaulting is idempotent. -/
theorem cleanSeverity_idem (s : GoStr) : cleanSeverity (cleanSeverity s) = cleanSeverity s := by
  by_cases h : toLowerStr (trimSpace s) = [] ∨ toLowerStr (trimSpace s) = "critical".data
  · have h1 : cleanSeverity s = "error".data := by
      simp only [cleanSeverity]
      rw [if_pos h]
    rw [h1]
    decide
  · have h1 : cleanSeverity s = toLowerStr (trimSpace s) := by
      simp only [cleanSeverity]
      rw [if_neg h]
    rw [h1]
    simp only [cleanSeverity]
    rw [lower_trim_idem, if_neg h]

/-- The negative-delay clamp is idempotent. -/
theorem clamp_idem (x : Int) :
    (if (if x < 0 then (0 : Int) else x) < 0 then (0 : Int) else (if x < 0 then (0 : Int) else x)) =
    if x < 0 then (0 : Int) else x := by
  split_ifs <;> omega

theorem cleanFieldOpt_idem (o : Option AlertField) :
    cleanFieldOpt (cleanFieldOpt o) = cleanFieldOpt o := by
  cases o with
  | none => rfl
  | some f =>
    simp only [cleanFieldOpt, Option.some.injEq, AlertField.mk.injEq]
    exact ⟨trim_trunc_idem _ (by decide) _, trim_trunc_idem _ (by decide) _⟩

theorem cleanPlainTextInputOpt_idem (o : Option WebhookPlainTextInput) :
    cleanPlainTextInputOpt (cleanPlainTextInputOpt o) = cleanPlainTextInputOpt o := by
  cases o with
  | none => rfl
  | some i => simp [cleanPlainTextInputOpt, trimSpace_idem]

theorem cleanCheckboxInputOpt_idem (o : Option WebhookCheckboxInput) :
    cleanCheckboxInputOpt (cleanCheckboxInputOpt o) = cleanCheckboxInputOpt o := by
  cases o with
  | none => rfl
  | some i => simp [cleanCheckboxInputOpt, trimSpace_idem]

theorem cleanWebhookOpt_idem (o : Option Webhook) :
    cleanWebhookOpt (cleanWebhookOpt o) = cleanWebhookOpt o := by
  cases o with
  | none => rfl
  | some h =>
    have hbs : (if (if h.buttonStyle = "default".data then ([] : GoStr) else h.buttonStyle) =
          "default".data then ([] : GoStr)
        else (if h.buttonStyle = "default".data then ([] : GoStr) else h.buttonStyle)) =
        if h.buttonStyle = "default".data then ([] : GoStr) else h.buttonStyle := by
      by_cases hb : h.buttonStyle = "default".data <;> simp [hb]
    have hpti : (h.plainTextInput.map cleanPlainTextInputOpt).map cleanPlainTextInputOpt =
        h.plainTextInput.map cleanPlainTextInputOpt := by
      rw [List.map_map]
      exact List.map_congr_left (fun x _ => cleanPlainTextInputOpt_idem x)
    have hcbi : (h.checkboxInput.map cleanCheckboxInputOpt).map cleanCheckboxInputOpt =
        h.checkboxInput.map cleanCheckboxInputOpt := by
      rw [List.map_map]
      exact List.map_congr_left (fun x _ => cleanCheckboxInputOpt_idem x)
    simp [cleanWebhookOpt, trimSpace_idem, hbs, hpti, hcbi]

theorem cleanEscalationOpt_idem (o : Option Escalation) :
    cleanEscalationOpt (cleanEscalationOpt o) = cleanEscalationOpt o := by
  cases o with
  | none => rfl
  | some e =>
    have hm : (e.slackMentions.map trimSpace).map trimSpace = e.slackMentions.map trimSpace := by
      rw [List.map_map]
      exact List.map_congr_left (fun x _ => trimSpace_idem x)
    simp [cleanEscalationOpt, lower_trim_idem, upper_trim_idem, hm]

-- The insertion sort over escalations: the comparator moves every nil to
-- the front and orders the rest by delay, so a sorted list is a fixed
-- point and a second sort changes nothing.

theorem lessEsc_none_left (y : Option Escalation) : lessEsc none y = true := rfl

theorem lessEsc_some_none (e : Escalation) : lessEsc (some e) none = false := rfl

theorem lessEsc_some_some (a b : Escalation) :
    lessEsc (some a) (some b) = decide (a.delaySeconds < b.delaySeconds) := rfl

theorem insertGo_none (acc : List (Option Escalation)) :
    insertGo lessEsc none acc = none :: acc := by
  cases acc with
  | nil => rfl
  | cons y ys =>
    have hcond : (lessEsc none y && ys.all (lessEsc none)) = true := by
      rw [lessEsc_none_left, Bool.true_and, List.all_eq_true]
      intro x hx
      exact lessEsc_none_left x
    simp [insertGo, hcond]

theorem insertGo_skip_nones (e : Escalation) (k : Nat) (l : List (Option Escalation)) :
    insertGo lessEsc (some e) (List.replicate k none ++ l) =
    List.replicate k none ++ insertGo lessEsc (some e) l := by
  induction k with
  | zero => simp
  | succ n ih =>
    rw [List.replicate_succ, List.cons_append, List.cons_append]
    simp only [insertGo]
    rw [if_neg (by rw [lessEsc_some_none, Bool.false_and]; exact Bool.false_ne_true), ih]

theorem insertGo_some_append {e : Escalation} {es : List Escalation}
    (h : ∀ p ∈ es, p.delaySeconds ≤ e.delaySeconds) :
    insertGo lessEsc (some e) (es.map some) = es.map some ++ [some e] := by
  induction es with
  | nil => rfl
  | cons y ys ih =>
    rw [List.map_cons, List.cons_append]
    simp only [insertGo]
    rw [if_neg, ih (fun p hp => h p (List.mem_cons_of_mem y hp))]
    intro hcontra
    rw [Bool.and_eq_true, lessEsc_some_some, decide_eq_true_eq] at hcontra
    have hy := h y (List.mem_cons_self y ys)
    omega

theorem insertGo_some_sorted (e : Escalation) {es : List Escalation}
    (hp : es.Pairwise (fun a b : Escalation => a.delaySeconds ≤ b.delaySeconds)) :
    ∃ es2 : List Escalation, insertGo lessEsc (some e) (es.map some) = es2.map some ∧
      es2.Pairwise (fun a b : Escalation => a.delaySeconds ≤ b.delaySeconds) ∧
      ∀ z ∈ es2, z = e ∨ z ∈ es := by
  induction es with
  | nil =>
    refine ⟨[e], rfl, List.pairwise_singleton _ _, fun z hz => Or.inl ?_⟩
    simpa using hz
  | cons y ys ih =>
    rw [List.pairwise_cons] at hp
    obtain ⟨hy, hys⟩ := hp
    obtain ⟨es2, heq, hp2, hmem⟩ := ih hys
    rw [List.map_cons]
    simp only [insertGo]
    by_cases hc : (lessEsc (some e) (some y) && (ys.map some).all (lessEsc (some e))) = true
    · rw [if_pos hc]
      rw [Bool.and_eq_true, lessEsc_some_some, decide_eq_true_eq, List.all_eq_true] at hc
      obtain ⟨h1, h2⟩ := hc
      refine ⟨e :: y :: ys, rfl, ?_, ?_⟩
      · rw [List.pairwise_cons]
        refine ⟨?_, List.pairwise_cons.mpr ⟨hy, hys⟩⟩
        intro z hz
        rcases List.mem_cons.mp hz with hz | hz
        · subst hz; omega
        · have hzz := h2 (some z) (List.mem_map_of_mem some hz)
          rw [lessEsc_some_some, decide_eq_true_eq] at hzz
          omega
      · intro z hz
        rcases List.mem_cons.mp hz with hz | hz
        · exact Or.inl hz
        · exact Or.inr hz
    · rw [if_neg hc]
      refine ⟨y :: es2, by rw [List.map_cons, heq], ?_, ?_⟩
      · rw [List.pairwise_cons]
        refine ⟨?_, hp2⟩
        intro z hz
        rcases hmem z hz with hz2 | hz2
        · subst hz2
          by_contra hlt
          apply hc
          rw [Bool.and_eq_true, lessEsc_some_some, decide_eq_true_eq, List.all_eq_true]
          refine ⟨by omega, ?_⟩
          intro x hx
          rcases List.mem_map.mp hx with ⟨w, hw, hwx⟩
          rw [← hwx, lessEsc_some_some, decide_eq_true_eq]
          have hyw := hy w hw
          omega
        · exact hy z hz2
      · intro z hz
        rcases List.mem_cons.mp hz with hz | hz
        · subst hz
          exact Or.inr (List.mem_cons_self _ _)
        · rcases hmem z hz with h1 | h1
          · exact Or.inl h1
          · exact Or.inr (List.mem_cons_of_mem y h1)

/-- The sort output is always a block of nils followed by the non-nil
entries in non-decreasing delay order. -/
theorem sortGo_shape (l : List (Option Escalation)) :
    ∃ (k : Nat) (es : List Escalation),
      sortGo lessEsc l = List.replicate k none ++ es.map some ∧
      es.Pairwise (fun a b : Escalation => a.delaySeconds ≤ b.delaySeconds) := by
  suffices haux : ∀ (l acc : List (Option Escalation)),
      (∃ (k : Nat) (es : List Escalation), acc = List.replicate k none ++ es.map some ∧
        es.Pairwise (fun a b : Escalation => a.delaySeconds ≤ b.delaySeconds)) →
      ∃ (k : Nat) (es : List Escalation),
        List.foldl (fun acc x => insertGo lessEsc x acc) acc l =
          List.replicate k none ++ es.map some ∧
        es.Pairwise (fun a b : Escalation => a.delaySeconds ≤ b.delaySeconds) by
    exact haux l [] ⟨0, [], rfl, List.Pairwise.nil⟩
  intro l
  induction l with
  | nil =>
    intro acc h
    simpa using h
  | cons x xs ih =>
    intro acc hacc
    obtain ⟨k, es, heq, hp⟩ := hacc
    simp only [List.foldl_cons]
    apply ih
    subst heq
    cases x with
    | none =>
      exact ⟨k + 1, es, by rw [insertGo_none, List.replicate_succ, List.cons_append], hp⟩
    | some e =>
      obtain ⟨es2, heq2, hp2, -⟩ := insertGo_some_sorted e hp
      exact ⟨k, es2, by rw [insertGo_skip_nones, heq2], hp2⟩

/-- A list already in sorted shape is a fixed point of the sort. -/
theorem sortGo_fix {l : List (Option Escalation)} {k : Nat} {es : List Escalation}
    (heq : l = List.replicate k none ++ es.map some)
    (hp : es.Pairwise (fun a b : Escalation => a.delaySeconds ≤ b.delaySeconds)) :
    sortGo lessEsc l = l := by
  subst heq
  simp only [sortGo]
  rw [List.foldl_append]
  have h1 : ∀ (m j : Nat),
      List.foldl (fun acc x => insertGo lessEsc x acc)
        (List.replicate j (none : Option Escalation)) (List.replicate m none) =
      List.replicate (j + m) none := by
    intro m
    induction m with
    | zero =>
      intro j
      simp
    | succ n ihn =>
      intro j
      rw [List.replicate_succ]
      simp only [List.foldl_cons]
      rw [insertGo_none, ← List.replicate_succ, ihn (j + 1)]
      congr 1
      omega
  have h2 : ∀ (rest done : List Escalation) (j : Nat),
      (done ++ rest).Pairwise (fun a b : Escalation => a.delaySeconds ≤ b.delaySeconds) →
      List.foldl (fun acc x => insertGo lessEsc x acc)
        (List.replicate j none ++ done.map some) (rest.map some) =
      List.replicate j none ++ (done ++ rest).map some := by
    intro rest
    induction rest with
    | nil =>
      intro done j hp2
      simp
    | cons t ts iht =>
      intro done j hp2
      have hb : ∀ p ∈ done, p.delaySeconds ≤ t.delaySeconds := by
        intro p hp3
        rw [List.pairwise_append] at hp2
        exact hp2.2.2 p hp3 t (List.mem_cons_self t ts)
      simp only [List.map_cons, List.foldl_cons]
      rw [insertGo_skip_nones, insertGo_some_append hb]
      have hstep : (done.map some ++ [some t]) = (done ++ [t]).map some := by simp
      rw [hstep, iht (done ++ [t]) j (by simpa using hp2)]
      simp
  have h0 : List.foldl (fun acc x => insertGo lessEsc x acc) ([] : List (Option Escalation))
      (List.replicate k none) = List.replicate k none := by
    have hz := h1 k 0
    simpa using hz
  rw [h0]
  have hfin := h2 es [] k (by simpa using hp)
  simpa using hfin

theorem sortGo_idem (l : List (Option Escalation)) :
    sortGo lessEsc (sortGo lessEsc l) = sortGo lessEsc l := by
  obtain ⟨k, es, heq, hp⟩ := sortGo_shape l
  exact sortGo_fix heq hp

theorem lessEsc_clean (x y : Option Escalation) :
    lessEsc (cleanEscalationOpt x) (cleanEscalationOpt y) = lessEsc x y := by
  cases x <;> cases y <;> rfl

theorem insertGo_map_clean (x : Option Escalation) (l : List (Option Escalation)) :
    insertGo lessEsc (cleanEscalationOpt x) (l.map cleanEscalationOpt) =
    (insertGo lessEsc x l).map cleanEscalationOpt := by
  induction l with
  | nil => rfl
  | cons y ys ih =>
    rw [List.map_cons]
    simp only [insertGo]
    have hall : ∀ (zs : List (Option Escalation)),
        zs.all (fun z => lessEsc (cleanEscalationOpt x) (cleanEscalationOpt z)) =
        zs.all (lessEsc x) := by
      intro zs
      induction zs with
      | nil => rfl
      | cons a as iha => rw [List.all_cons, List.all_cons, iha, lessEsc_clean]
    have hcond : (lessEsc (cleanEscalationOpt x) (cleanEscalationOpt y) &&
        (ys.map cleanEscalationOpt).all (lessEsc (cleanEscalationOpt x))) =
        (lessEsc x y && ys.all (lessEsc x)) := by
      rw [lessEsc_clean, List.all_map]
      congr 1
      exact hall ys
    rw [hcond]
    by_cases hc : (lessEsc x y && ys.all (lessEsc x)) = true
    · rw [if_pos hc, if_pos hc, List.map_cons, List.map_cons]
    · rw [if_neg hc, if_neg hc, List.map_cons, ih]

/-- Sorting commutes with the per-entry cleaning (which preserves both
nil-ness and delays, the only comparator inputs). -/
theorem sortGo_map_clean (l : List (Option Escalation)) :
    sortGo lessEsc (l.map cleanEscalationOpt) = (sortGo lessEsc l).map cleanEscalationOpt := by
  simp only [sortGo]
  rw [List.foldl_map]
  suffices haux : ∀ (l acc : List (Option Escalation)),
      List.foldl (fun acc x => insertGo lessEsc (cleanEscalationOpt x) acc)
        (acc.map cleanEscalationOpt) l =
      (List.foldl (fun acc x => insertGo lessEsc x acc) acc l).map cleanEscalationOpt by
    exact haux l []
  intro l
  induction l with
  | nil =>
    intro acc
    rfl
  | cons x xs ih =>
    intro acc
    simp only [List.foldl_cons]
    rw [insertGo_map_clean, ih (insertGo lessEsc x acc)]

theorem insertGo_length {α : Type} (less : α → α → Bool) (x : α) (l : List α) :
    (insertGo less x l).length = l.length + 1 := by
  induction l with
  | nil => rfl
  | cons y ys ih =>
    simp only [insertGo]
    split
    · simp
    · simp only [List.length_cons, ih]

theorem sortGo_length {α : Type} (less : α → α → Bool) (l : List α) :
    (sortGo less l).length = l.length := by
  simp only [sortGo]
  suffices haux : ∀ (l acc : List α),
      (List.foldl (fun acc x => insertGo less x acc) acc l).length = acc.length + l.length by
    simpa using haux l []
  intro l
  induction l with
  | nil =>
    intro acc
    simp
  | cons x xs ih =>
    intro acc
    simp only [List.foldl_cons]
    rw [ih (insertGo less x acc), insertGo_length]
    simp only [List.length_cons]
    omega

/-- The whole escalation step of `Clean` (sort if non-empty, then clean
each entry) is idempotent. -/
theorem cleanEsc_pass_idem (esc : List (Option Escalation)) :
    (if 0 < (if 0 < esc.length then (sortGo lessEsc esc).map cleanEscalationOpt
          else esc).length then
        (sortGo lessEsc (if 0 < esc.length then (sortGo lessEsc esc).map cleanEscalationOpt
          else esc)).map cleanEscalationOpt
      else (if 0 < esc.length then (sortGo lessEsc esc).map cleanEscalationOpt else esc)) =
    (if 0 < esc.length then (sortGo lessEsc esc).map cleanEscalationOpt else esc) := by
  by_cases h : 0 < esc.length
  · rw [if_pos h]
    have hlen : 0 < ((sortGo lessEsc esc).map cleanEscalationOpt).length := by
      rw [List.length_map, sortGo_length]
      exact h
    rw [if_pos hlen, sortGo_map_clean (sortGo lessEsc esc), sortGo_idem, List.map_map]
    exact List.map_congr_left (fun o _ => cleanEscalationOpt_idem o)
  · rw [if_neg h, if_neg h]

/-- C2 counterexample: `Clean` is *not* idempotent, even with a fresh
timestamp.  Removing `":status:"` from the fallback text
`":stat:status:us:"` splices the two halves into a brand-new `":status:"`,
which only the second `Clean` removes: the first pass leaves fallback text
`":status:"`, the second leaves `""`. -/
theorem clean_not_idempotent :
    clean 0 (clean 0 { zeroAlert with fallbackText := ":stat:status:us:".data }) ≠
    clean 0 { zeroAlert with fallbackText := ":stat:status:us:".data } := by
  decide

set_option maxHeartbeats 1000000 in
/-- C2 (amended): for every alert whose timestamp is not stale and whose
fallback text does not re-form `":status:"` when the token is removed
(true in particular for any fallback text without the token), `Clean`
is idempotent: the second pass changes no field, including the nested
fields, webhooks, webhook inputs and escalations. -/
theorem clean_idempotent (now : Int) (a : Alert)
    (hts : ¬ (maxTimestampAge < now - a.timestamp))
    (hfb : ¬ statusToken <:+: replaceAll statusToken [] a.fallbackText) :
    clean now (clean now a) = clean now a := by
  simp only [clean, Alert.mk.injEq]
  refine ⟨?_, ?_, ?_, ?_, ?_, ?_, ?_, ?_, ?_, ?_, ?_, ?_, ?_, ?_, ?_, ?_, ?_, ?_, ?_, ?_,
    ?_, ?_, ?_, ?_, ?_, ?_, ?_, ?_⟩
  · rw [if_neg hts, if_neg hts]
  · exact trimSpace_idem a.correlationID
  · exact lower_trim_idem a.type
  · exact header_pipe_idem maxHeaderLength (by decide) a.header
  · exact header_pipe_idem maxHeaderLength (by decide) a.headerWhenResolved
  · exact shorten_trim_idem a.text
  · exact shorten_trim_idem a.textWhenResolved
  · exact cleanFallbackText_idem hfb
  · exact trim_trunc_idem maxAuthorLength (by decide) a.author
  · exact trim_trunc_idem maxHostLength (by decide) a.host
  · exact trim_trunc_idem maxFooterLength (by decide) a.footer
  · exact trimSpace_idem a.link
  · trivial
  · trivial
  · trivial
  · exact cleanSeverity_idem a.severity
  · exact upper_trim_idem a.slackChannelID
  · exact lower_trim_idem a.routeKey
  · exact trim_trunc_idem maxUsernameLength (by decide) a.username
  · exact lower_trim_idem a.iconEmoji
  · rw [List.map_map]
    exact List.map_congr_left (fun o _ => cleanFieldOpt_idem o)
  · exact clamp_idem a.notificationDelaySeconds
  · exact clamp_idem a.archivingDelaySeconds
  · exact cleanEsc_pass_idem a.escalation
  · trivial
  · rw [List.map_map]
    exact List.map_congr_left (fun o _ => cleanWebhookOpt_idem o)
  · trivial
  · trivial

theorem clean_idempotent_witness :
    clean 5 (clean 5 wAlert) = clean 5 wAlert :=
  clean_idempotent 5 wAlert (by decide) (by decide)

end SlackMgr
